import Mathlib

/-!
Verification of the event-hub backend core: the attendance-response upsert
(`create_or_update_response`), the companion read/delete operations, and the
roster reconciliation script (`sync_users`).  The Python source is embedded
shallowly: the SQLite tables become lists of records inside a `Store`,
timestamps become naturals, and each handler becomes a pure function that
returns its result together with the (possibly updated) store.
-/

/-- Person row: table `user` in `main.py` (integer primary key `id`,
plus `name`, `type`, `role`, `active`). -/
structure User where
  id : Nat
  name : String
  type : String
  role : String
  active : Bool
deriving Repr, DecidableEq

/-- Attendance row: table `eventresponse` in `main.py`.  Its declared
constraints are a primary key on `id` and foreign keys on `user_id` and
`event_id`; there is no uniqueness constraint on `(event_id, user_id)`. -/
structure EventResponse where
  id : Nat
  user_id : Nat
  event_id : Nat
  status : String
  note : Option String
  created_at : Nat
  updated_at : Nat
deriving Repr, DecidableEq

/-- Database state.  Events are opaque beyond their id, so the `event`
table is kept as the list of existing event ids.  `nextRespId` models the
autoincrementing primary key of `eventresponse`. -/
structure Store where
  users : List User
  events : List Nat
  responses : List EventResponse
  nextRespId : Nat
deriving Repr, DecidableEq

/-- Errors raised by the handlers: `HTTPException` in the source, plus the
`IntegrityError` SQLAlchemy raises at commit when deleting a row whose
dependent `eventresponse` rows would need their NOT NULL foreign key set to
NULL (the `user`/`event` relationships configure no delete cascade). -/
inductive ApiError where
  | eventNotFound
  | userNotFound
  | invalidStatus
  | responseNotFound
  | integrityError
deriving Repr, DecidableEq

/-- Key membership test for a list of ids (Python `in` on a set of keys). -/
def hasKey (l : List Nat) (i : Nat) : Bool := l.any (fun j => j == i)

/-- `session.get(User, i)`: fetch the user row with primary key `i`. -/
def lookupU (xs : List User) (i : Nat) : Option User := xs.find? (fun u => u.id == i)

/-- The key set of a user table (Python `users.keys()`). -/
def ukeys (xs : List User) : List Nat := xs.map (fun u => u.id)

/-- The `select(EventResponse).where(event_id == eid and user_id == uid)).first()`
query of `main.py`. -/
def lookupResp (rs : List EventResponse) (eid uid : Nat) : Option EventResponse :=
  rs.find? (fun r => r.event_id == eid && r.user_id == uid)

/-- In-place mutation of the row returned by `first()` (the session flushes
the changed fields back to that same row): replace the first row matching
the `(event_id, user_id)` key. -/
def replaceFirstResp (eid uid : Nat) (r : EventResponse) : List EventResponse → List EventResponse
  | [] => []
  | x :: xs =>
    if x.event_id == eid && x.user_id == uid then r :: xs
    else x :: replaceFirstResp eid uid r xs

/-- POST `/events/{event_id}/responses` (`create_or_update_response` in
`main.py`): check the event exists, the user exists and the status is one of
Yes/No/Maybe, then update the existing `(event_id, user_id)` row or insert a
fresh one.  `now` is the value `datetime.now(timezone.utc)` would produce. -/
def create_or_update_response (now eid uid : Nat) (status : String) (note : Option String)
    (s : Store) : Except ApiError EventResponse × Store :=
  if !hasKey s.events eid then (.error .eventNotFound, s)
  else if (lookupU s.users uid).isNone then (.error .userNotFound, s)
  else if !(status == "Yes" || status == "No" || status == "Maybe") then
    (.error .invalidStatus, s)
  else
    match lookupResp s.responses eid uid with
    | some existing =>
      let r := { existing with status := status, note := note, updated_at := now }
      (.ok r, { s with responses := replaceFirstResp eid uid r s.responses })
    | none =>
      let r : EventResponse :=
        ⟨s.nextRespId, uid, eid, status, note, now, now⟩
      (.ok r, { s with responses := s.responses ++ [r], nextRespId := s.nextRespId + 1 })

/-- DELETE `/events/{event_id}/responses/{user_id}` (`delete_response`). -/
def delete_response (eid uid : Nat) (s : Store) : Except ApiError Unit × Store :=
  if !hasKey s.events eid then (.error .eventNotFound, s)
  else
    match lookupResp s.responses eid uid with
    | none => (.error .responseNotFound, s)
    | some _ =>
      (.ok (), { s with responses :=
        s.responses.eraseP (fun r => r.event_id == eid && r.user_id == uid) })

/-- DELETE `/users/{user_id}` (`delete_user`).  No delete cascade is
configured on `User.responses`, so at commit SQLAlchemy nullifies
`eventresponse.user_id` on the user's responses; that column is NOT NULL, so
when the user still has responses the commit raises `IntegrityError` and the
transaction rolls back with nothing deleted.  Only a user without responses
is actually removed, and the `eventresponse` table is never touched. -/
def delete_user (uid : Nat) (s : Store) : Except ApiError Unit × Store :=
  if (lookupU s.users uid).isNone then (.error .userNotFound, s)
  else if s.responses.any (fun r => r.user_id == uid) then (.error .integrityError, s)
  else (.ok (), { s with users := s.users.eraseP (fun u => u.id == uid) })

/-- POST `/users` (`create_user`). -/
def create_user (u : User) (s : Store) : Store := { s with users := s.users ++ [u] }

/-- POST `/events`, reduced to what the core sees: a new event id exists. -/
def create_event (eid : Nat) (s : Store) : Store := { s with events := s.events ++ [eid] }

/-- DELETE `/events/{event_id}` (`delete_event`).  Like `delete_user`, the
un-cascaded `Event.responses` relationship makes the commit nullify the NOT
NULL `eventresponse.event_id` column, so deleting an event that still has
responses raises `IntegrityError` and mutates nothing. -/
def delete_event (eid : Nat) (s : Store) : Except ApiError Unit × Store :=
  if !hasKey s.events eid then (.error .eventNotFound, s)
  else if s.responses.any (fun r => r.event_id == eid) then (.error .integrityError, s)
  else (.ok (), { s with events := s.events.eraseP (fun j => j == eid) })

/-- Store-level insert into `eventresponse`: SQLite checks only the declared
constraints of the table, i.e. primary-key uniqueness of `id`.  Nothing in
the schema rejects a second row with the same `(event_id, user_id)`. -/
def storeInsertResponse (r : EventResponse) (s : Store) : Option Store :=
  if s.responses.any (fun x => x.id == r.id) then none
  else some { s with responses := s.responses ++ [r] }

/-- Result record of GET `/events/{event_id}/responses/summary`. -/
structure SummaryCounts where
  yes : Nat
  no : Nat
  maybe : Nat
  mentors_attending : Nat
  students_attending : Nat
deriving Repr, DecidableEq

/-- Predicate for the mentor bucket of the summary: a `Yes` response whose
user exists and has `type == "mentor"`. -/
def isMentorYes (s : Store) (r : EventResponse) : Bool :=
  r.status == "Yes" &&
    (match lookupU s.users r.user_id with
     | some u => u.type == "mentor"
     | none => false)

/-- Predicate for the student bucket: a `Yes` response whose user exists and
falls into the `elif type == "student"` branch. -/
def isStudentYes (s : Store) (r : EventResponse) : Bool :=
  r.status == "Yes" &&
    (match lookupU s.users r.user_id with
     | some u => !(u.type == "mentor") && u.type == "student"
     | none => false)

/-- GET `/events/{event_id}/responses/summary` (`responses_summary`). -/
def responses_summary (eid : Nat) (s : Store) : Except ApiError SummaryCounts :=
  if !hasKey s.events eid then .error .eventNotFound
  else
    let rs := s.responses.filter (fun r => r.event_id == eid)
    .ok
      { yes := rs.countP (fun r => r.status == "Yes")
        no := rs.countP (fun r => r.status == "No")
        maybe := rs.countP (fun r => r.status == "Maybe")
        mentors_attending := rs.countP (isMentorYes s)
        students_attending := rs.countP (isStudentYes s) }

/-- Uniqueness of the `(event_id, user_id)` key in a response table,
as a decidable check. -/
def pairFree (eid uid : Nat) (rs : List EventResponse) : Bool :=
  rs.all (fun r => !(r.event_id == eid && r.user_id == uid))

/-- Every `(event_id, user_id)` pair occurs at most once. -/
def pairUnique : List EventResponse → Bool
  | [] => true
  | r :: rs => pairFree r.event_id r.user_id rs && pairUnique rs

/-- Name-mismatch record of the validation phase of `sync_users.py`. -/
structure Mismatch where
  id : Nat
  csv_name : String
  db_name : String
deriving Repr, DecidableEq

/-- One mutation applied by the sync phase, in the order the script applies
them: a delete, a field-overwriting update, or an insert of a user. -/
inductive MutOp where
  | del (id : Nat)
  | upd (id : Nat)
  | ins (id : Nat)
deriving Repr, DecidableEq

def MutOp.isDel : MutOp → Bool
  | .del _ => true
  | _ => false

def MutOp.isUpd : MutOp → Bool
  | .upd _ => true
  | _ => false

def MutOp.isIns : MutOp → Bool
  | .ins _ => true
  | _ => false

/-- Summary of a completed sync run: how many users were deleted, updated
and inserted, and the sequence of mutations in application order. -/
structure SyncSummary where
  deleted : Nat
  updated : Nat
  inserted : Nat
  trace : List MutOp
deriving Repr, DecidableEq

instance {ε α : Type} [DecidableEq ε] [DecidableEq α] : DecidableEq (Except ε α) := fun a b =>
  match a, b with
  | .error x, .error y =>
    if h : x = y then .isTrue (by rw [h]) else .isFalse (by simp [h])
  | .ok x, .ok y =>
    if h : x = y then .isTrue (by rw [h]) else .isFalse (by simp [h])
  | .error _, .ok _ => .isFalse (by simp)
  | .ok _, .error _ => .isFalse (by simp)

/-- Full outcome of `sync_users`: either the validation-phase mismatch list
(the script exits before the sync phase) or a summary, together with the
resulting user table. -/
structure SyncOutcome where
  result : Except (List Mismatch) SyncSummary
  db : List User
deriving Repr, DecidableEq

/-- Python `sorted` on a list of ids (insertion sort; only the ordering of
iteration depends on it). -/
def insertNat (i : Nat) : List Nat → List Nat
  | [] => [i]
  | j :: js => if i ≤ j then i :: j :: js else j :: insertNat i js

def sortNat : List Nat → List Nat
  | [] => []
  | i :: is => insertNat i (sortNat is)

/-- Validation phase of `sync_users.py`: over the sorted common ids, collect
every id whose CSV name and database name differ. -/
def mismatchesOf (ext db : List User) : List Mismatch :=
  (sortNat ((ukeys ext).filter (fun i => hasKey (ukeys db) i))).filterMap (fun i =>
    match lookupU ext i, lookupU db i with
    | some e, some d => if e.name ≠ d.name then some ⟨i, e.name, d.name⟩ else none
    | _, _ => none)

/-- Sorted ids present in the database but not in the CSV (`db_only`). -/
def dbOnlyIds (ext db : List User) : List Nat :=
  sortNat ((ukeys db).filter (fun i => !hasKey (ukeys ext) i))

/-- The user table after the delete pass: exactly the rows whose id also
occurs in the CSV survive. -/
def dbDel (ext db : List User) : List User :=
  db.filter (fun u => hasKey (ukeys ext) u.id)

/-- In-place update of the row `session.get(User, i)` returned: replace the
first row with id `i`. -/
def replaceFirstById (i : Nat) (r : User) : List User → List User
  | [] => []
  | x :: xs => if x.id == i then r :: xs else x :: replaceFirstById i r xs

/-- Field-level diff of the sync phase: true when any of name, type, role or
active differs between the database row `d` and the CSV record `e`. -/
def recDiffers (d e : User) : Bool :=
  d.name != e.name || d.type != e.type || d.role != e.role || d.active != e.active

/-- The field assignments of the update branch: the database row `d` takes
name, type, role and active from the CSV record `e`, keeping its id. -/
def applyCsv (d e : User) : User :=
  { d with name := e.name, type := e.type, role := e.role, active := e.active }

/-- Body of the per-id loop of the sync phase: update the existing row when
any of name/type/role/active differs from the CSV record, insert a new row
built from the CSV record when the id is absent. -/
def processKey (ext db : List User) (i : Nat) : List MutOp × List User :=
  match lookupU ext i, lookupU db i with
  | some e, some d =>
    if recDiffers d e then ([.upd i], replaceFirstById i (applyCsv d e) db)
    else ([], db)
  | some e, none => ([.ins i], db ++ [e])
  | none, _ => ([], db)

/-- Mutations the loop body emits for id `i`, expressed against a fixed
database snapshot (used to characterise the loop's trace). -/
def piece (ext db : List User) (i : Nat) : List MutOp :=
  match lookupU ext i, lookupU db i with
  | some e, some d => if recDiffers d e then [.upd i] else []
  | some _, none => [.ins i]
  | none, _ => []

/-- The sync-phase loop `for user_id in sorted(csv_users.keys())`. -/
def syncLoop (ext : List User) : List Nat → List User → List MutOp × List User
  | [], db => ([], db)
  | i :: rest, db =>
    let step := processKey ext db i
    let restRun := syncLoop ext rest step.2
    (step.1 ++ restRun.1, restRun.2)

/-- `sync_users` of `sync_users.py` on an already-loaded CSV map `ext` and
database map `db`: if the validation phase finds mismatches the script exits
with them and the sync phase never runs; otherwise it deletes the `db_only`
users, then walks the sorted CSV ids updating or inserting. -/
def sync_users (ext db : List User) : SyncOutcome :=
  if mismatchesOf ext db ≠ [] then ⟨.error (mismatchesOf ext db), db⟩
  else
    let run := syncLoop ext (sortNat (ukeys ext)) (dbDel ext db)
    ⟨.ok ⟨(dbOnlyIds ext db).length, run.1.countP MutOp.isUpd, run.1.countP MutOp.isIns,
          (dbOnlyIds ext db).map MutOp.del ++ run.1⟩,
     run.2⟩

/-- Result of running the sync script against the full store: the validation
exit, the delete-phase `IntegrityError`, or a completed run. -/
inductive SyncStoreResult where
  | conflict (ms : List Mismatch)
  | integrityError
  | ok (sum : SyncSummary)
deriving Repr, DecidableEq

/-- The sync script against the full store.  Its session only ever queries
and mutates `User` rows, but the delete-phase commit makes SQLAlchemy
nullify `eventresponse.user_id` on each deleted user's responses; when any
deleted (database-only) user still has responses, that NOT NULL violation
raises `IntegrityError`, the script dies and the whole run mutates nothing.
The `eventresponse` table itself is never touched in any outcome. -/
def sync_users_store (ext : List User) (s : Store) : SyncStoreResult × Store :=
  match (sync_users ext s.users).result with
  | .error ms => (.conflict ms, s)
  | .ok sum =>
    if s.users.any (fun u => !hasKey (ukeys ext) u.id &&
        s.responses.any (fun r => r.user_id == u.id)) then
      (.integrityError, s)
    else (.ok sum, { s with users := (sync_users ext s.users).db })

/-- Operator-visible events of a script invocation: whether a confirmation
prompt was shown before mutating, and whether a database backup was made. -/
structure OpTrace where
  confirmRequested : Bool
  backupMade : Bool
deriving Repr, DecidableEq

/-- The `__main__` block of `sync_users.py`: it parses an optional CSV path
from `argv` and immediately calls `sync_users` — it contains no `input()`
call and no call to any backup routine. -/
def sync_main (ext : List User) (s : Store) : OpTrace × SyncStoreResult × Store :=
  (⟨false, false⟩, sync_users_store ext s)

/-- The `confirm.lower().startswith("y")` test of `reset_db.py`: true exactly
when the answer's first character is `y` or `Y`. -/
def startsWithY (s : String) : Bool :=
  match s.data with
  | [] => false
  | c :: _ => c == 'y' || c == 'Y'

/-- The `__main__` block of `reset_db.py`: with `-y`/`--yes` the answer is
forced to "y", otherwise the operator is prompted; the database is reset
(after `backup_db` when the file exists) only on a "y"-answer.  The `Bool`
result records whether `reset_database()` ran. -/
def reset_main (argv : List String) (answer : String) (dbExists : Bool) :
    OpTrace × Bool :=
  if startsWithY (if argv.any (fun a => a == "-y" || a == "--yes") then "y" else answer) then
    (⟨!argv.any (fun a => a == "-y" || a == "--yes"), dbExists⟩, true)
  else (⟨!argv.any (fun a => a == "-y" || a == "--yes"), false⟩, false)

/-- Checker for the ordering property "every update is applied before every
insert": true when some insert is followed (later in the trace) by an update. -/
def updAfterIns : List MutOp → Bool
  | [] => false
  | op :: rest => (op.isIns && rest.any MutOp.isUpd) || updAfterIns rest

/-- States reachable from the empty database through the handlers. -/
inductive Reachable : Store → Prop where
  | init : Reachable ⟨[], [], [], 0⟩
  | addUser (u : User) {s : Store} : Reachable s → Reachable (create_user u s)
  | addEvent (eid : Nat) {s : Store} : Reachable s → Reachable (create_event eid s)
  | upsert (now eid uid : Nat) (status : String) (note : Option String) {s : Store} :
      Reachable s → Reachable (create_or_update_response now eid uid status note s).2
  | delResp (eid uid : Nat) {s : Store} :
      Reachable s → Reachable (delete_response eid uid s).2
  | delUser (uid : Nat) {s : Store} : Reachable s → Reachable (delete_user uid s).2
  | delEvent (eid : Nat) {s : Store} : Reachable s → Reachable (delete_event eid s).2
  | sync (ext : List User) {s : Store} :
      Reachable s → Reachable (sync_users_store ext s).2

/-! Basic lemmas about key lookup and sorting. -/

theorem hasKey_iff {l : List Nat} {i : Nat} : hasKey l i = true ↔ i ∈ l := by
  simp [hasKey, List.any_eq_true]

theorem lookupU_id {xs : List User} {i : Nat} {u : User} (h : lookupU xs i = some u) :
    u.id = i := by
  have := List.find?_some h
  simpa using this

theorem lookupU_mem {xs : List User} {i : Nat} {u : User} (h : lookupU xs i = some u) :
    u ∈ xs :=
  List.mem_of_find?_eq_some h

theorem lookupU_eq_none {xs : List User} {i : Nat} :
    lookupU xs i = none ↔ i ∉ ukeys xs := by
  simp only [lookupU, List.find?_eq_none, ukeys, List.mem_map]
  constructor
  · rintro h ⟨u, hu, hid⟩
    exact h u hu (by simp [hid])
  · intro h u hu hbeq
    exact h ⟨u, hu, by simpa using hbeq⟩

theorem lookupU_isSome_iff {xs : List User} {i : Nat} :
    (lookupU xs i).isSome = true ↔ i ∈ ukeys xs := by
  simp only [lookupU, List.find?_isSome, ukeys, List.mem_map]
  constructor
  · rintro ⟨u, hu, hbeq⟩
    exact ⟨u, hu, by simpa using hbeq⟩
  · rintro ⟨u, hu, hid⟩
    exact ⟨u, hu, by simp [hid]⟩

theorem mem_ukeys_of_lookupU {xs : List User} {i : Nat} {u : User}
    (h : lookupU xs i = some u) : i ∈ ukeys xs := by
  have := @lookupU_isSome_iff xs i
  rw [h] at this
  exact this.mp rfl

theorem exists_lookupU_of_mem_ukeys {xs : List User} {i : Nat} (h : i ∈ ukeys xs) :
    ∃ u, lookupU xs i = some u := by
  have := (@lookupU_isSome_iff xs i).mpr h
  exact Option.isSome_iff_exists.mp this

theorem insertNat_perm (i : Nat) (l : List Nat) : (insertNat i l).Perm (i :: l) := by
  induction l with
  | nil => simp [insertNat]
  | cons j js ih =>
    simp only [insertNat]
    split
    · exact List.Perm.refl _
    · exact (List.Perm.cons j ih).trans (List.Perm.swap i j js)

theorem sortNat_perm (l : List Nat) : (sortNat l).Perm l := by
  induction l with
  | nil => simp [sortNat]
  | cons i is ih => exact (insertNat_perm i (sortNat is)).trans (List.Perm.cons i ih)

theorem mem_sortNat {a : Nat} {l : List Nat} : a ∈ sortNat l ↔ a ∈ l :=
  (sortNat_perm l).mem_iff

theorem sortNat_nodup {l : List Nat} (h : l.Nodup) : (sortNat l).Nodup :=
  ((sortNat_perm l).nodup_iff).mpr h

theorem lookupU_replaceFirstById_ne {xs : List User} {i j : Nat} {r : User}
    (hr : r.id = i) (hij : j ≠ i) :
    lookupU (replaceFirstById i r xs) j = lookupU xs j := by
  induction xs with
  | nil => rfl
  | cons x xs ih =>
    simp only [replaceFirstById]
    by_cases hx : x.id = i
    · simp only [hx, beq_self_eq_true, if_true]
      simp only [lookupU, List.find?]
      have h1 : (r.id == j) = false := by simp [hr, Ne.symm hij]
      have h2 : (x.id == j) = false := by simp [hx, Ne.symm hij]
      rw [h1, h2]
    · have hxb : (x.id == i) = false := by simp [hx]
      simp only [hxb, if_false]
      simp only [lookupU, List.find?] at *
      cases hxj : (x.id == j) with
      | true => rfl
      | false => exact ih

theorem lookupU_replaceFirstById_eq {xs : List User} {i : Nat} {r : User}
    (hr : r.id = i) (h : i ∈ ukeys xs) :
    lookupU (replaceFirstById i r xs) i = some r := by
  induction xs with
  | nil => simp [ukeys] at h
  | cons x xs ih =>
    simp only [replaceFirstById]
    by_cases hx : x.id = i
    · simp only [hx, beq_self_eq_true, if_true]
      simp [lookupU, List.find?, hr]
    · have hxb : (x.id == i) = false := by simp [hx]
      simp only [hxb, if_false]
      have hmem : i ∈ ukeys xs := by
        simp only [ukeys, List.mem_map] at h ⊢
        rcases h with ⟨u, hu, hid⟩
        rcases List.mem_cons.mp hu with hu | hu
        · exact absurd (hu ▸ hid) hx
        · exact ⟨u, hu, hid⟩
      simp only [lookupU, List.find?, hxb]
      exact ih hmem

theorem ukeys_replaceFirstById {xs : List User} {i : Nat} {r : User} (hr : r.id = i) :
    ukeys (replaceFirstById i r xs) = ukeys xs := by
  induction xs with
  | nil => rfl
  | cons x xs ih =>
    simp only [replaceFirstById]
    by_cases hx : x.id = i
    · simp [hx, ukeys, hr]
    · have hxb : (x.id == i) = false := by simp [hx]
      simp only [hxb, Bool.false_eq_true, if_false, ukeys, List.map_cons]
      have ih' : List.map (fun u => u.id) (replaceFirstById i r xs) =
          List.map (fun u => u.id) xs := ih
      rw [ih']

theorem find?_filter_of_imp {α : Type} {p q : α → Bool} (l : List α)
    (h : ∀ x, q x = true → p x = true) :
    (l.filter p).find? q = l.find? q := by
  induction l with
  | nil => rfl
  | cons x xs ih =>
    by_cases hp : p x = true
    · rw [List.filter_cons, if_pos hp]
      cases hq : q x with
      | true => simp [List.find?, hq]
      | false => simp [List.find?, hq, ih]
    · have hq : q x = false := by
        cases hq : q x with
        | true => exact absurd (h x hq) hp
        | false => rfl
      rw [List.filter_cons, if_neg hp]
      simp [List.find?, hq, ih]

theorem find?_filter_none {α : Type} {p q : α → Bool} (l : List α)
    (h : ∀ x, q x = true → p x = false) :
    (l.filter p).find? q = none := by
  rw [List.find?_eq_none]
  intro x hx
  rcases List.mem_filter.mp hx with ⟨_, hpx⟩
  intro hqx
  rw [h x hqx] at hpx
  exact Bool.false_ne_true hpx

theorem lookupU_dbDel {ext db : List User} {i : Nat} :
    lookupU (dbDel ext db) i = if i ∈ ukeys ext then lookupU db i else none := by
  by_cases hm : i ∈ ukeys ext
  · rw [if_pos hm]
    exact find?_filter_of_imp db (fun x hq => by
      have : x.id = i := by simpa using hq
      rw [this]
      exact hasKey_iff.mpr hm)
  · rw [if_neg hm]
    exact find?_filter_none db (fun x hq => by
      have : x.id = i := by simpa using hq
      rw [this]
      cases hk : hasKey (ukeys ext) i with
      | true => exact absurd (hasKey_iff.mp hk) hm
      | false => rfl)

/-! Lemmas about the sync-phase loop. -/

theorem applyCsv_id (d e : User) : (applyCsv d e).id = d.id := rfl

theorem processKey_fst {ext db : List User} {i : Nat} :
    (processKey ext db i).1 = piece ext db i := by
  unfold processKey piece
  cases lookupU ext i with
  | none => rfl
  | some e =>
    cases lookupU db i with
    | none => rfl
    | some d =>
      by_cases h : recDiffers d e = true
      · simp only [if_pos h]
      · simp only [if_neg h]

theorem piece_congr {ext db1 db2 : List User} {j : Nat}
    (h : lookupU db1 j = lookupU db2 j) : piece ext db1 j = piece ext db2 j := by
  unfold piece
  rw [h]

theorem processKey_lookup_ne {ext db : List User} {i j : Nat} (hij : j ≠ i) :
    lookupU (processKey ext db i).2 j = lookupU db j := by
  unfold processKey
  cases hE : lookupU ext i with
  | none => rfl
  | some e =>
    cases hD : lookupU db i with
    | none =>
      show lookupU (db ++ [e]) j = lookupU db j
      simp only [lookupU]
      rw [List.find?_append]
      have h2 : List.find? (fun u => u.id == j) [e] = none := by
        rw [List.find?_eq_none]
        intro x hx
        rw [List.mem_singleton] at hx
        subst hx
        simp [lookupU_id hE, Ne.symm hij]
      rw [h2, Option.or_none]
    | some d =>
      simp only []
      split
      · have hr : (applyCsv d e).id = i := (applyCsv_id d e).trans (lookupU_id hD)
        exact lookupU_replaceFirstById_ne hr hij
      · rfl

theorem processKey_lookup_self {ext db : List User} {i : Nat} {e : User}
    (he : lookupU ext i = some e) :
    lookupU (processKey ext db i).2 i = some e := by
  have hei : e.id = i := lookupU_id he
  unfold processKey
  rw [he]
  cases hD : lookupU db i with
  | none =>
    show lookupU (db ++ [e]) i = some e
    simp only [lookupU] at hD ⊢
    rw [List.find?_append, hD]
    have h2 : List.find? (fun u => u.id == i) [e] = some e := by
      have hb : (e.id == i) = true := by simp [hei]
      simp [List.find?, hb]
    rw [h2]
    rfl
  | some d =>
    have hdi : d.id = i := lookupU_id hD
    simp only []
    split
    · have hr : (applyCsv d e).id = i := (applyCsv_id d e).trans hdi
      rw [lookupU_replaceFirstById_eq hr (mem_ukeys_of_lookupU hD)]
      cases e
      cases d
      simp_all [applyCsv]
    · rename_i hdiff
      rw [hD]
      have hne : d.name = e.name ∧ d.type = e.type ∧ d.role = e.role ∧ d.active = e.active := by
        simp only [recDiffers, Bool.or_eq_true, bne_iff_ne] at hdiff
        push_neg at hdiff
        obtain ⟨⟨⟨h1, h2⟩, h3⟩, h4⟩ := hdiff
        exact ⟨h1, h2, h3, h4⟩
      cases e
      cases d
      simp_all

theorem processKey_ukeys_nodup {ext db : List User} {i : Nat}
    (h : (ukeys db).Nodup) : (ukeys (processKey ext db i).2).Nodup := by
  unfold processKey
  cases hE : lookupU ext i with
  | none => exact h
  | some e =>
    cases hD : lookupU db i with
    | none =>
      simp only []
      have hni : i ∉ ukeys db := lookupU_eq_none.mp hD
      have hei : e.id = i := lookupU_id hE
      rw [show ukeys (db ++ [e]) = ukeys db ++ [e.id] from by simp [ukeys]]
      rw [List.nodup_append]
      refine ⟨h, List.nodup_singleton _, ?_⟩
      intro a ha hb
      simp only [List.mem_singleton] at hb
      rw [hb, hei] at ha
      exact hni ha
    | some d =>
      simp only []
      split
      · have hr : (applyCsv d e).id = i := (applyCsv_id d e).trans (lookupU_id hD)
        rw [ukeys_replaceFirstById hr]
        exact h
      · exact h

theorem syncLoop_lookup_not_mem {ext : List User} {ids : List Nat} {db : List User} {j : Nat}
    (h : j ∉ ids) : lookupU (syncLoop ext ids db).2 j = lookupU db j := by
  induction ids generalizing db with
  | nil => rfl
  | cons i rest ih =>
    have hij : j ≠ i := fun hc => h (hc ▸ List.mem_cons_self i rest)
    have hrest : j ∉ rest := fun hc => h (List.mem_cons_of_mem i hc)
    simp only [syncLoop]
    rw [ih hrest, processKey_lookup_ne hij]

theorem syncLoop_lookup_mem {ext : List User} {ids : List Nat} {db : List User}
    {i : Nat} {e : User} (hnd : ids.Nodup) (hi : i ∈ ids) (he : lookupU ext i = some e) :
    lookupU (syncLoop ext ids db).2 i = some e := by
  induction ids generalizing db with
  | nil => cases hi
  | cons a rest ih =>
    simp only [syncLoop]
    rcases List.mem_cons.mp hi with hia | hia
    · subst hia
      have hnr : i ∉ rest := (List.nodup_cons.mp hnd).1
      rw [syncLoop_lookup_not_mem hnr, processKey_lookup_self he]
    · exact ih (List.nodup_cons.mp hnd).2 hia

theorem syncLoop_trace {ext : List User} {ids : List Nat} {db : List User}
    (hnd : ids.Nodup) :
    (syncLoop ext ids db).1 = (ids.map (piece ext db)).flatten := by
  induction ids generalizing db with
  | nil => rfl
  | cons i rest ih =>
    simp only [syncLoop, List.map_cons, List.flatten_cons]
    rw [processKey_fst, ih (List.nodup_cons.mp hnd).2]
    congr 1
    congr 1
    apply List.map_congr_left
    intro j hj
    have hji : j ≠ i := by
      intro hc
      exact (List.nodup_cons.mp hnd).1 (hc ▸ hj)
    exact piece_congr (processKey_lookup_ne hji)

theorem syncLoop_ukeys_nodup {ext : List User} {ids : List Nat} {db : List User}
    (h : (ukeys db).Nodup) : (ukeys (syncLoop ext ids db).2).Nodup := by
  induction ids generalizing db with
  | nil => exact h
  | cons i rest ih =>
    simp only [syncLoop]
    exact ih (processKey_ukeys_nodup h)

theorem syncLoop_noop {ext : List User} {ids : List Nat} {db : List User}
    (h : ∀ i ∈ ids, processKey ext db i = ([], db)) :
    syncLoop ext ids db = ([], db) := by
  induction ids with
  | nil => rfl
  | cons i rest ih =>
    simp only [syncLoop]
    rw [h i (List.mem_cons_self i rest)]
    show ([] ++ (syncLoop ext rest db).1, (syncLoop ext rest db).2) = ([], db)
    rw [ih (fun j hj => h j (List.mem_cons_of_mem i hj))]
    rfl

theorem del_not_mem_piece {ext db : List User} {j k : Nat} :
    MutOp.del k ∉ piece ext db j := by
  unfold piece
  cases lookupU ext j with
  | none => simp
  | some e =>
    cases lookupU db j with
    | none => simp
    | some d =>
      simp only []
      split <;> simp

theorem upd_mem_piece {ext db : List User} {j k : Nat} :
    MutOp.upd k ∈ piece ext db j ↔
      k = j ∧ ∃ e d, lookupU ext j = some e ∧ lookupU db j = some d ∧ recDiffers d e = true := by
  unfold piece
  cases hE : lookupU ext j with
  | none => simp
  | some e =>
    cases hD : lookupU db j with
    | none => simp
    | some d =>
      simp only []
      split
      · rename_i hdiff
        simp only [List.mem_singleton, MutOp.upd.injEq]
        constructor
        · intro hk
          exact ⟨hk, e, d, rfl, rfl, hdiff⟩
        · rintro ⟨hk, _⟩
          exact hk
      · rename_i hdiff
        simp only [List.not_mem_nil, false_iff, not_and]
        rintro hk ⟨e', d', he', hd', hdiff'⟩
        injection he' with he2
        injection hd' with hd2
        subst he2
        subst hd2
        exact hdiff hdiff'

theorem ins_mem_piece {ext db : List User} {j k : Nat} :
    MutOp.ins k ∈ piece ext db j ↔
      k = j ∧ (∃ e, lookupU ext j = some e) ∧ lookupU db j = none := by
  unfold piece
  cases hE : lookupU ext j with
  | none => simp
  | some e =>
    cases hD : lookupU db j with
    | none => simp
    | some d =>
      simp only []
      split <;> simp

/-! Lemmas about `sync_users` as a whole. -/

theorem recDiffers_self (e : User) : recDiffers e e = false := by
  simp [recDiffers]

theorem mem_commonList {ext db : List User} {i : Nat} :
    i ∈ sortNat ((ukeys ext).filter (fun j => hasKey (ukeys db) j)) ↔
      i ∈ ukeys ext ∧ i ∈ ukeys db := by
  rw [mem_sortNat, List.mem_filter, hasKey_iff]

theorem mem_dbOnlyIds {ext db : List User} {i : Nat} :
    i ∈ dbOnlyIds ext db ↔ i ∈ ukeys db ∧ i ∉ ukeys ext := by
  unfold dbOnlyIds
  rw [mem_sortNat, List.mem_filter]
  constructor
  · rintro ⟨h1, h2⟩
    refine ⟨h1, fun hm => ?_⟩
    rw [hasKey_iff.mpr hm] at h2
    exact Bool.false_ne_true h2
  · rintro ⟨h1, h2⟩
    refine ⟨h1, ?_⟩
    cases hk : hasKey (ukeys ext) i with
    | true => exact absurd (hasKey_iff.mp hk) h2
    | false => rfl

theorem mismatchesOf_complete {ext db : List User} {i : Nat} {e d : User}
    (he : lookupU ext i = some e) (hd : lookupU db i = some d) (hne : e.name ≠ d.name) :
    (⟨i, e.name, d.name⟩ : Mismatch) ∈ mismatchesOf ext db := by
  unfold mismatchesOf
  rw [List.mem_filterMap]
  refine ⟨i, mem_commonList.mpr ⟨mem_ukeys_of_lookupU he, mem_ukeys_of_lookupU hd⟩, ?_⟩
  rw [he, hd]
  show (if e.name ≠ d.name then some (⟨i, e.name, d.name⟩ : Mismatch) else none) =
    some ⟨i, e.name, d.name⟩
  rw [if_pos hne]

theorem mismatchesOf_sound {ext db : List User} {m : Mismatch}
    (h : m ∈ mismatchesOf ext db) :
    ∃ e d, lookupU ext m.id = some e ∧ lookupU db m.id = some d ∧
      e.name ≠ d.name ∧ e.name = m.csv_name ∧ d.name = m.db_name := by
  unfold mismatchesOf at h
  rw [List.mem_filterMap] at h
  obtain ⟨i, _, hf⟩ := h
  cases he : lookupU ext i with
  | none => rw [he] at hf; cases hf
  | some e =>
    cases hd : lookupU db i with
    | none => rw [he, hd] at hf; cases hf
    | some d =>
      rw [he, hd] at hf
      have hf2 : (if e.name ≠ d.name then some (⟨i, e.name, d.name⟩ : Mismatch) else none) =
          some m := hf
      by_cases hne : e.name ≠ d.name
      · rw [if_pos hne] at hf2
        injection hf2 with hf2
        subst hf2
        exact ⟨e, d, he, hd, hne, rfl, rfl⟩
      · rw [if_neg hne] at hf2
        cases hf2

theorem mismatchesOf_eq_nil {ext db : List User} :
    mismatchesOf ext db = [] ↔
      ∀ i e d, lookupU ext i = some e → lookupU db i = some d → e.name = d.name := by
  constructor
  · intro h i e d he hd
    by_contra hne
    have := mismatchesOf_complete he hd hne
    rw [h] at this
    cases this
  · intro h
    unfold mismatchesOf
    rw [List.filterMap_eq_nil_iff]
    intro i hi
    obtain ⟨hie, hid⟩ := mem_commonList.mp hi
    obtain ⟨e, he⟩ := exists_lookupU_of_mem_ukeys hie
    obtain ⟨d, hd⟩ := exists_lookupU_of_mem_ukeys hid
    rw [he, hd]
    show (if e.name ≠ d.name then some (⟨i, e.name, d.name⟩ : Mismatch) else none) = none
    rw [if_neg (not_not_intro (h i e d he hd))]

theorem sync_users_error {ext db : List User} (h : mismatchesOf ext db ≠ []) :
    sync_users ext db = ⟨.error (mismatchesOf ext db), db⟩ := by
  unfold sync_users
  rw [if_pos h]

theorem sync_users_ok {ext db : List User} (h : mismatchesOf ext db = []) :
    sync_users ext db =
      ⟨.ok ⟨(dbOnlyIds ext db).length,
            (syncLoop ext (sortNat (ukeys ext)) (dbDel ext db)).1.countP MutOp.isUpd,
            (syncLoop ext (sortNat (ukeys ext)) (dbDel ext db)).1.countP MutOp.isIns,
            (dbOnlyIds ext db).map MutOp.del ++
              (syncLoop ext (sortNat (ukeys ext)) (dbDel ext db)).1⟩,
       (syncLoop ext (sortNat (ukeys ext)) (dbDel ext db)).2⟩ := by
  unfold sync_users
  rw [if_neg (by simp [h])]

theorem sync_final_lookup {ext db : List User} (hne : (ukeys ext).Nodup)
    (hval : mismatchesOf ext db = []) (i : Nat) :
    lookupU (sync_users ext db).db i = lookupU ext i := by
  rw [sync_users_ok hval]
  by_cases hm : i ∈ ukeys ext
  · obtain ⟨e, he⟩ := exists_lookupU_of_mem_ukeys hm
    rw [he]
    exact syncLoop_lookup_mem (sortNat_nodup hne) (mem_sortNat.mpr hm) he
  · rw [lookupU_eq_none.mpr hm]
    have hnotin : i ∉ sortNat (ukeys ext) := fun hc => hm (mem_sortNat.mp hc)
    rw [syncLoop_lookup_not_mem hnotin, lookupU_dbDel, if_neg hm]

theorem ukeys_dbDel_nodup {ext db : List User} (hnd : (ukeys db).Nodup) :
    (ukeys (dbDel ext db)).Nodup := by
  have hsub : (ukeys (dbDel ext db)).Sublist (ukeys db) := by
    unfold ukeys dbDel
    exact (List.filter_sublist db).map (fun u => u.id)
  exact hsub.nodup hnd

theorem sync_final_ukeys_nodup {ext db : List User} (hnd : (ukeys db).Nodup) :
    (ukeys (sync_users ext db).db).Nodup := by
  by_cases hval : mismatchesOf ext db = []
  · rw [sync_users_ok hval]
    exact syncLoop_ukeys_nodup (ukeys_dbDel_nodup hnd)
  · rw [sync_users_error hval]
    exact hnd

theorem sync_noop {ext db : List User} (hsame : ∀ i, lookupU ext i = lookupU db i) :
    sync_users ext db = ⟨.ok ⟨0, 0, 0, []⟩, db⟩ := by
  have hval : mismatchesOf ext db = [] := by
    rw [mismatchesOf_eq_nil]
    intro i e d he hd
    rw [hsame i, hd] at he
    injection he with he
    rw [he]
  have hdbOnly : dbOnlyIds ext db = [] := by
    have : ((ukeys db).filter (fun i => !hasKey (ukeys ext) i)) = [] := by
      rw [List.filter_eq_nil_iff]
      intro i hi
      obtain ⟨d, hd⟩ := exists_lookupU_of_mem_ukeys hi
      have : lookupU ext i = some d := (hsame i).trans hd
      have hm : i ∈ ukeys ext := mem_ukeys_of_lookupU this
      simp [hasKey_iff.mpr hm]
    rw [dbOnlyIds, this]
    rfl
  have hdel : dbDel ext db = db := by
    rw [dbDel, List.filter_eq_self]
    intro u hu
    have hmem : u.id ∈ ukeys db := List.mem_map.mpr ⟨u, hu, rfl⟩
    obtain ⟨d, hd⟩ := exists_lookupU_of_mem_ukeys hmem
    have : lookupU ext u.id = some d := (hsame u.id).trans hd
    exact hasKey_iff.mpr (mem_ukeys_of_lookupU this)
  have hloop : syncLoop ext (sortNat (ukeys ext)) (dbDel ext db) = ([], db) := by
    rw [hdel]
    apply syncLoop_noop
    intro i hi
    have hm : i ∈ ukeys ext := mem_sortNat.mp hi
    obtain ⟨e, he⟩ := exists_lookupU_of_mem_ukeys hm
    have hd : lookupU db i = some e := (hsame i).symm.trans he
    unfold processKey
    rw [he, hd]
    simp [recDiffers_self]
  rw [sync_users_ok hval, hloop, hdbOnly]
  rfl

/-! Lemmas about the mutation trace of a successful sync run. -/

theorem bool_eq_false {b : Bool} (h : ¬b = true) : b = false := by
  cases b
  · rfl
  · exact absurd rfl h

theorem piece_no_del {ext db : List User} {j : Nat} :
    ∀ op ∈ piece ext db j, op.isDel = false := by
  intro op
  unfold piece
  cases hE : lookupU ext j with
  | none =>
    intro hop
    cases hop
  | some e =>
    cases hD : lookupU db j with
    | none =>
      intro hop
      rw [List.mem_singleton] at hop
      rw [hop]
      rfl
    | some d =>
      show op ∈ (if recDiffers d e = true then [MutOp.upd j] else []) → op.isDel = false
      by_cases hdiff : recDiffers d e = true
      · rw [if_pos hdiff]
        intro hop
        rw [List.mem_singleton] at hop
        rw [hop]
        rfl
      · rw [if_neg hdiff]
        intro hop
        cases hop

theorem flatten_pieces_no_del {ext db : List User} {ids : List Nat} {k : Nat} :
    MutOp.del k ∉ (ids.map (piece ext db)).flatten := by
  intro h
  rw [List.mem_flatten] at h
  obtain ⟨l, hl, hmem⟩ := h
  rw [List.mem_map] at hl
  obtain ⟨j, _, hj⟩ := hl
  subst hj
  exact del_not_mem_piece hmem

theorem sync_trace_del {ext db : List User} {i : Nat} :
    MutOp.del i ∈ (dbOnlyIds ext db).map MutOp.del ++
      ((sortNat (ukeys ext)).map (piece ext (dbDel ext db))).flatten ↔
    i ∈ ukeys db ∧ i ∉ ukeys ext := by
  rw [List.mem_append]
  constructor
  · rintro (h | h)
    · rw [List.mem_map] at h
      obtain ⟨j, hj, hdel⟩ := h
      injection hdel with hd
      subst hd
      exact mem_dbOnlyIds.mp hj
    · exact absurd h flatten_pieces_no_del
  · intro h
    left
    rw [List.mem_map]
    exact ⟨i, mem_dbOnlyIds.mpr h, rfl⟩

theorem sync_trace_upd {ext db : List User} {i : Nat} :
    MutOp.upd i ∈ (dbOnlyIds ext db).map MutOp.del ++
      ((sortNat (ukeys ext)).map (piece ext (dbDel ext db))).flatten ↔
    ∃ e d, lookupU ext i = some e ∧ lookupU db i = some d ∧ recDiffers d e = true := by
  rw [List.mem_append]
  constructor
  · rintro (h | h)
    · rw [List.mem_map] at h
      obtain ⟨j, _, hdel⟩ := h
      cases hdel
    · rw [List.mem_flatten] at h
      obtain ⟨l, hl, hmem⟩ := h
      rw [List.mem_map] at hl
      obtain ⟨j, hj, hjl⟩ := hl
      subst hjl
      obtain ⟨hij, e, d, he, hd, hdiff⟩ := upd_mem_piece.mp hmem
      subst hij
      have hmext : i ∈ ukeys ext := mem_sortNat.mp hj
      rw [lookupU_dbDel, if_pos hmext] at hd
      exact ⟨e, d, he, hd, hdiff⟩
  · rintro ⟨e, d, he, hd, hdiff⟩
    right
    rw [List.mem_flatten]
    have hmext : i ∈ ukeys ext := mem_ukeys_of_lookupU he
    refine ⟨piece ext (dbDel ext db) i, List.mem_map.mpr ⟨i, mem_sortNat.mpr hmext, rfl⟩, ?_⟩
    apply upd_mem_piece.mpr
    refine ⟨rfl, e, d, he, ?_, hdiff⟩
    rw [lookupU_dbDel, if_pos hmext]
    exact hd

theorem sync_trace_ins {ext db : List User} {i : Nat} :
    MutOp.ins i ∈ (dbOnlyIds ext db).map MutOp.del ++
      ((sortNat (ukeys ext)).map (piece ext (dbDel ext db))).flatten ↔
    i ∈ ukeys ext ∧ i ∉ ukeys db := by
  rw [List.mem_append]
  constructor
  · rintro (h | h)
    · rw [List.mem_map] at h
      obtain ⟨j, _, hdel⟩ := h
      cases hdel
    · rw [List.mem_flatten] at h
      obtain ⟨l, hl, hmem⟩ := h
      rw [List.mem_map] at hl
      obtain ⟨j, hj, hjl⟩ := hl
      subst hjl
      obtain ⟨hij, ⟨e, he⟩, hd⟩ := ins_mem_piece.mp hmem
      subst hij
      have hmext : i ∈ ukeys ext := mem_sortNat.mp hj
      rw [lookupU_dbDel, if_pos hmext] at hd
      exact ⟨hmext, lookupU_eq_none.mp hd⟩
  · rintro ⟨hme, hmd⟩
    right
    rw [List.mem_flatten]
    obtain ⟨e, he⟩ := exists_lookupU_of_mem_ukeys hme
    refine ⟨piece ext (dbDel ext db) i, List.mem_map.mpr ⟨i, mem_sortNat.mpr hme, rfl⟩, ?_⟩
    apply ins_mem_piece.mpr
    refine ⟨rfl, ⟨e, he⟩, ?_⟩
    rw [lookupU_dbDel, if_pos hme]
    exact lookupU_eq_none.mpr hmd

/-! Lemmas about response lookup, replacement and pair uniqueness. -/

theorem lookupResp_pair {rs : List EventResponse} {eid uid : Nat} {r : EventResponse}
    (h : lookupResp rs eid uid = some r) : r.event_id = eid ∧ r.user_id = uid := by
  have := List.find?_some h
  simp only [Bool.and_eq_true, beq_iff_eq] at this
  exact this

theorem lookupResp_replaceFirstResp {rs : List EventResponse} {eid uid : Nat}
    {x r : EventResponse} (h : lookupResp rs eid uid = some x)
    (hr : (r.event_id == eid && r.user_id == uid) = true) :
    lookupResp (replaceFirstResp eid uid r rs) eid uid = some r := by
  induction rs with
  | nil => cases h
  | cons y ys ih =>
    simp only [replaceFirstResp]
    by_cases hy : (y.event_id == eid && y.user_id == uid) = true
    · rw [if_pos hy]
      simp [lookupResp, List.find?, hr]
    · have hy2 : (y.event_id == eid && y.user_id == uid) = false := bool_eq_false hy
      rw [if_neg hy]
      simp only [lookupResp, List.find?, hy2] at h ⊢
      exact ih h

theorem lookupResp_append_new {rs : List EventResponse} {eid uid : Nat} {r : EventResponse}
    (h : lookupResp rs eid uid = none)
    (hr : (r.event_id == eid && r.user_id == uid) = true) :
    lookupResp (rs ++ [r]) eid uid = some r := by
  simp only [lookupResp] at h ⊢
  rw [List.find?_append, h]
  simp [List.find?, hr]

theorem countP_replaceFirstResp {rs : List EventResponse} {eid uid : Nat} {r : EventResponse}
    (hr : (r.event_id == eid && r.user_id == uid) = true) :
    (replaceFirstResp eid uid r rs).countP (fun x => x.event_id == eid && x.user_id == uid) =
      rs.countP (fun x => x.event_id == eid && x.user_id == uid) := by
  induction rs with
  | nil => rfl
  | cons y ys ih =>
    simp only [replaceFirstResp]
    by_cases hy : (y.event_id == eid && y.user_id == uid) = true
    · rw [if_pos hy]
      rw [List.countP_cons, List.countP_cons]
      simp only [hr, hy]
    · have hy2 : (y.event_id == eid && y.user_id == uid) = false := bool_eq_false hy
      rw [if_neg hy]
      rw [List.countP_cons, List.countP_cons, ih]

theorem countP_zero_of_lookupResp_none {rs : List EventResponse} {eid uid : Nat}
    (h : lookupResp rs eid uid = none) :
    rs.countP (fun x => x.event_id == eid && x.user_id == uid) = 0 := by
  rw [List.countP_eq_zero]
  intro a ha
  have := List.find?_eq_none.mp h a ha
  exact fun hc => this hc

theorem pairFree_iff {eid uid : Nat} {rs : List EventResponse} :
    pairFree eid uid rs = true ↔
      ∀ r ∈ rs, (r.event_id == eid && r.user_id == uid) = false := by
  simp only [pairFree, List.all_eq_true, Bool.not_eq_true']

theorem countP_one_of_pairUnique {rs : List EventResponse} {eid uid : Nat}
    {x : EventResponse} (hpu : pairUnique rs = true) (h : lookupResp rs eid uid = some x) :
    rs.countP (fun r => r.event_id == eid && r.user_id == uid) = 1 := by
  induction rs with
  | nil => cases h
  | cons y ys ih =>
    rw [pairUnique, Bool.and_eq_true] at hpu
    obtain ⟨hfy, hpys⟩ := hpu
    by_cases hy : (y.event_id == eid && y.user_id == uid) = true
    · rw [List.countP_cons]
      simp only [hy, if_true]
      have hye : y.event_id = eid ∧ y.user_id = uid := by simpa using hy
      have hzero : ys.countP (fun r => r.event_id == eid && r.user_id == uid) = 0 := by
        rw [List.countP_eq_zero]
        intro a ha hc
        have hfa := pairFree_iff.mp hfy a ha
        rw [hye.1, hye.2] at hfa
        rw [hfa] at hc
        exact Bool.false_ne_true hc
      rw [hzero]
    · have hy2 : (y.event_id == eid && y.user_id == uid) = false := bool_eq_false hy
      rw [List.countP_cons]
      simp only [hy2, Bool.false_eq_true, if_false, Nat.add_zero]
      simp only [lookupResp, List.find?, hy2] at h
      exact ih hpys h

theorem pairFree_replaceFirstResp {rs : List EventResponse} {a b eid uid : Nat}
    {r : EventResponse} (hr : (r.event_id == eid && r.user_id == uid) = true) :
    pairFree a b (replaceFirstResp eid uid r rs) = pairFree a b rs := by
  induction rs with
  | nil => rfl
  | cons y ys ih =>
    simp only [replaceFirstResp]
    by_cases hy : (y.event_id == eid && y.user_id == uid) = true
    · rw [if_pos hy]
      have hre : r.event_id = eid ∧ r.user_id = uid := by simpa using hr
      have hye : y.event_id = eid ∧ y.user_id = uid := by simpa using hy
      simp only [pairFree, List.all_cons]
      rw [hre.1, hre.2, hye.1, hye.2]
    · rw [if_neg hy]
      simp only [pairFree, List.all_cons] at ih ⊢
      rw [show (replaceFirstResp eid uid r ys).all
            (fun x => !(x.event_id == a && x.user_id == b)) =
          ys.all (fun x => !(x.event_id == a && x.user_id == b)) from ih]

theorem pairUnique_replaceFirstResp {rs : List EventResponse} {eid uid : Nat}
    {r : EventResponse} (hr : (r.event_id == eid && r.user_id == uid) = true)
    (hpu : pairUnique rs = true) :
    pairUnique (replaceFirstResp eid uid r rs) = true := by
  induction rs with
  | nil => rfl
  | cons y ys ih =>
    rw [pairUnique, Bool.and_eq_true] at hpu
    obtain ⟨hfy, hpys⟩ := hpu
    simp only [replaceFirstResp]
    by_cases hy : (y.event_id == eid && y.user_id == uid) = true
    · rw [if_pos hy]
      rw [pairUnique, Bool.and_eq_true]
      have hre : r.event_id = eid ∧ r.user_id = uid := by simpa using hr
      have hye : y.event_id = eid ∧ y.user_id = uid := by simpa using hy
      constructor
      · rw [hre.1, hre.2, ← hye.1, ← hye.2]
        exact hfy
      · exact hpys
    · rw [if_neg hy]
      rw [pairUnique, Bool.and_eq_true]
      exact ⟨by rw [pairFree_replaceFirstResp hr]; exact hfy, ih hpys⟩

theorem all_of_sublist {α : Type} {p : α → Bool} {xs ys : List α}
    (hs : xs.Sublist ys) (h : ys.all p = true) : xs.all p = true := by
  rw [List.all_eq_true] at h ⊢
  exact fun x hx => h x (hs.subset hx)

theorem pairUnique_sublist {xs ys : List EventResponse}
    (hs : xs.Sublist ys) (h : pairUnique ys = true) : pairUnique xs = true := by
  induction hs with
  | slnil => rfl
  | cons a _ ih =>
    rename_i l₁ l₂ _
    rw [pairUnique, Bool.and_eq_true] at h
    exact ih h.2
  | cons₂ a hsub ih =>
    rename_i l₁ l₂
    rw [pairUnique, Bool.and_eq_true] at h ⊢
    exact ⟨all_of_sublist hsub h.1, ih h.2⟩

theorem pairUnique_append {rs : List EventResponse} {r : EventResponse}
    (hpu : pairUnique rs = true)
    (hfree : pairFree r.event_id r.user_id rs = true) :
    pairUnique (rs ++ [r]) = true := by
  induction rs with
  | nil =>
    simp [pairUnique, pairFree]
  | cons y ys ih =>
    rw [pairUnique, Bool.and_eq_true] at hpu
    obtain ⟨hfy, hpys⟩ := hpu
    simp only [pairFree, List.all_cons, Bool.and_eq_true] at hfree
    obtain ⟨hyr, hfree'⟩ := hfree
    rw [List.cons_append, pairUnique, Bool.and_eq_true]
    constructor
    · simp only [pairFree, List.all_append, Bool.and_eq_true]
      refine ⟨hfy, ?_⟩
      simp only [List.all_cons, List.all_nil, Bool.and_true]
      cases hc : (r.event_id == y.event_id && r.user_id == y.user_id) with
      | false => rfl
      | true =>
        exfalso
        have hc2 : r.event_id = y.event_id ∧ r.user_id = y.user_id := by simpa using hc
        have : (y.event_id == r.event_id && y.user_id == r.user_id) = true := by
          simp [hc2.1, hc2.2]
        rw [this] at hyr
        cases hyr
    · exact ih hpys hfree'

/-! Reduction lemmas for the upsert handler. -/

theorem isNone_false_of_isSome {α : Type} {o : Option α} (h : o.isSome = true) :
    o.isNone = false := by
  cases o
  · cases h
  · rfl

theorem statusB_of_valid {status : String}
    (h : status = "Yes" ∨ status = "No" ∨ status = "Maybe") :
    (status == "Yes" || status == "No" || status == "Maybe") = true := by
  rcases h with h | h | h <;> simp [h]

theorem upsert_update (now eid uid : Nat) (status : String) (note : Option String)
    (s : Store) {ex : EventResponse}
    (hev : hasKey s.events eid = true)
    (hus : (lookupU s.users uid).isSome = true)
    (hstB : (status == "Yes" || status == "No" || status == "Maybe") = true)
    (hfound : lookupResp s.responses eid uid = some ex) :
    create_or_update_response now eid uid status note s =
      (.ok { ex with status := status, note := note, updated_at := now },
       { s with
          responses := replaceFirstResp eid uid
            ({ ex with status := status, note := note, updated_at := now }) s.responses }) := by
  unfold create_or_update_response
  rw [hev, isNone_false_of_isSome hus, hstB, hfound]
  rfl

theorem upsert_insert (now eid uid : Nat) (status : String) (note : Option String)
    (s : Store)
    (hev : hasKey s.events eid = true)
    (hus : (lookupU s.users uid).isSome = true)
    (hstB : (status == "Yes" || status == "No" || status == "Maybe") = true)
    (hnone : lookupResp s.responses eid uid = none) :
    create_or_update_response now eid uid status note s =
      (.ok ⟨s.nextRespId, uid, eid, status, note, now, now⟩,
       { s with responses := s.responses ++ [⟨s.nextRespId, uid, eid, status, note, now, now⟩],
                nextRespId := s.nextRespId + 1 }) := by
  unfold create_or_update_response
  rw [hev, isNone_false_of_isSome hus, hstB, hnone]
  rfl

/-- C1: when the event exists, the person exists and the status is valid, the
upsert overwrites the existing `(event_id, user_id)` row's status and note,
stamps `updated_at` with the current time while keeping `created_at` and `id`,
and returns that row; when no row exists it creates and returns a fresh row
with `created_at = updated_at = now` and the given status and note. -/
theorem upsert_functional_correct (now eid uid : Nat) (status : String)
    (note : Option String) (s : Store)
    (hev : hasKey s.events eid = true)
    (hus : (lookupU s.users uid).isSome = true)
    (hst : status = "Yes" ∨ status = "No" ∨ status = "Maybe") :
    (∀ ex, lookupResp s.responses eid uid = some ex →
      ∃ r' s', create_or_update_response now eid uid status note s = (.ok r', s') ∧
        r'.status = status ∧ r'.note = note ∧ r'.updated_at = now ∧
        r'.created_at = ex.created_at ∧ r'.id = ex.id ∧
        lookupResp s'.responses eid uid = some r' ∧
        s'.users = s.users ∧ s'.events = s.events) ∧
    (lookupResp s.responses eid uid = none →
      ∃ r' s', create_or_update_response now eid uid status note s = (.ok r', s') ∧
        r'.status = status ∧ r'.note = note ∧
        r'.created_at = now ∧ r'.updated_at = now ∧
        s'.responses = s.responses ++ [r'] ∧
        lookupResp s'.responses eid uid = some r') := by
  have hstB := statusB_of_valid hst
  constructor
  · intro ex hfound
    obtain ⟨hexe, hexu⟩ := lookupResp_pair hfound
    have hpair : (({ ex with status := status, note := note, updated_at := now} :
        EventResponse).event_id == eid &&
        ({ ex with status := status, note := note, updated_at := now} :
        EventResponse).user_id == uid) = true := by
      simp [hexe, hexu]
    refine ⟨{ ex with status := status, note := note, updated_at := now }, _,
      upsert_update now eid uid status note s hev hus hstB hfound,
      rfl, rfl, rfl, rfl, rfl, ?_, rfl, rfl⟩
    exact lookupResp_replaceFirstResp hfound hpair
  · intro hnone
    have hpair : ((⟨s.nextRespId, uid, eid, status, note, now, now⟩ :
        EventResponse).event_id == eid &&
        (⟨s.nextRespId, uid, eid, status, note, now, now⟩ :
        EventResponse).user_id == uid) = true := by
      simp
    refine ⟨⟨s.nextRespId, uid, eid, status, note, now, now⟩, _,
      upsert_insert now eid uid status note s hev hus hstB hnone,
      rfl, rfl, rfl, rfl, rfl, ?_⟩
    exact lookupResp_append_new hnone hpair

/-- Witness for C1: a concrete run through the update branch. -/
theorem upsert_functional_correct_witness :
    (hasKey (⟨[⟨1, "A", "mentor", "x", true⟩], [1], [⟨0, 1, 1, "Yes", none, 5, 5⟩], 1⟩ :
        Store).events 1 = true ∧
     (lookupU (⟨[⟨1, "A", "mentor", "x", true⟩], [1], [⟨0, 1, 1, "Yes", none, 5, 5⟩], 1⟩ :
        Store).users 1).isSome = true) ∧
    create_or_update_response 9 1 1 "No" (some "n")
        ⟨[⟨1, "A", "mentor", "x", true⟩], [1], [⟨0, 1, 1, "Yes", none, 5, 5⟩], 1⟩ =
      (.ok ⟨0, 1, 1, "No", some "n", 5, 9⟩,
       ⟨[⟨1, "A", "mentor", "x", true⟩], [1], [⟨0, 1, 1, "No", some "n", 5, 9⟩], 1⟩) := by
  refine ⟨⟨by decide, by decide⟩, ?_⟩
  have h := upsert_functional_correct 9 1 1 "No" (some "n")
    ⟨[⟨1, "A", "mentor", "x", true⟩], [1], [⟨0, 1, 1, "Yes", none, 5, 5⟩], 1⟩
    (by decide) (by decide) (Or.inr (Or.inl rfl))
  exact (by decide)

/-- C6: the upsert rejects, before any write, a request whose event is
missing, whose user is missing, or whose status is outside Yes/No/Maybe, and
in each case the store is returned unchanged. -/
theorem upsert_rejects_invalid (now eid uid : Nat) (status : String)
    (note : Option String) (s : Store) :
    (hasKey s.events eid = false →
      create_or_update_response now eid uid status note s = (.error .eventNotFound, s)) ∧
    (hasKey s.events eid = true → lookupU s.users uid = none →
      create_or_update_response now eid uid status note s = (.error .userNotFound, s)) ∧
    (hasKey s.events eid = true → (lookupU s.users uid).isSome = true →
      status ≠ "Yes" → status ≠ "No" → status ≠ "Maybe" →
      create_or_update_response now eid uid status note s = (.error .invalidStatus, s)) := by
  refine ⟨?_, ?_, ?_⟩
  · intro h
    unfold create_or_update_response
    rw [h]
    rfl
  · intro h1 h2
    unfold create_or_update_response
    rw [h1, h2]
    rfl
  · intro h1 h2 hy hn hm
    have hb : (status == "Yes" || status == "No" || status == "Maybe") = false := by
      simp [hy, hn, hm]
    unfold create_or_update_response
    rw [h1, isNone_false_of_isSome h2, hb]
    rfl

/-- Witness for C6: a missing event and an invalid status are both rejected
with the store unchanged. -/
theorem upsert_rejects_invalid_witness :
    create_or_update_response 0 1 1 "Yes" none ⟨[], [], [], 0⟩ =
      (.error .eventNotFound, ⟨[], [], [], 0⟩) ∧
    create_or_update_response 0 1 1 "Perhaps" none
        ⟨[⟨1, "A", "mentor", "x", true⟩], [1], [], 0⟩ =
      (.error .invalidStatus, ⟨[⟨1, "A", "mentor", "x", true⟩], [1], [], 0⟩) := by
  constructor
  · exact (upsert_rejects_invalid 0 1 1 "Yes" none ⟨[], [], [], 0⟩).1 (by decide)
  · exact (upsert_rejects_invalid 0 1 1 "Perhaps" none
      ⟨[⟨1, "A", "mentor", "x", true⟩], [1], [], 0⟩).2.2 (by decide) (by decide)
      (by decide) (by decide) (by decide)

/-- C5: two consecutive successful upserts for the same `(event_id, user_id)`
key leave exactly one row for that key, carrying the second call's status and
note, with `created_at` unchanged from the first call and `updated_at`
non-decreasing; identical calls differ only in `updated_at`. -/
theorem upsert_twice_one_row (t1 t2 eid uid : Nat) (st1 st2 : String)
    (n1 n2 : Option String) (s : Store)
    (hev : hasKey s.events eid = true)
    (hus : (lookupU s.users uid).isSome = true)
    (hst1 : st1 = "Yes" ∨ st1 = "No" ∨ st1 = "Maybe")
    (hst2 : st2 = "Yes" ∨ st2 = "No" ∨ st2 = "Maybe")
    (ht : t1 ≤ t2)
    (hpu : pairUnique s.responses = true) :
    ∃ r1 s1 r2 s2,
      create_or_update_response t1 eid uid st1 n1 s = (.ok r1, s1) ∧
      create_or_update_response t2 eid uid st2 n2 s1 = (.ok r2, s2) ∧
      s2.responses.countP (fun r => r.event_id == eid && r.user_id == uid) = 1 ∧
      r2.status = st2 ∧ r2.note = n2 ∧
      r2.created_at = r1.created_at ∧
      r1.updated_at ≤ r2.updated_at ∧
      lookupResp s2.responses eid uid = some r2 ∧
      (st1 = st2 → n1 = n2 → r2 = { r1 with updated_at := t2 }) := by
  have hstB1 := statusB_of_valid hst1
  have hstB2 := statusB_of_valid hst2
  cases hfound : lookupResp s.responses eid uid with
  | some ex =>
    obtain ⟨hexe, hexu⟩ := lookupResp_pair hfound
    have hpair1 : ((⟨ex.id, ex.user_id, ex.event_id, st1, n1, ex.created_at, t1⟩ :
        EventResponse).event_id == eid &&
        (⟨ex.id, ex.user_id, ex.event_id, st1, n1, ex.created_at, t1⟩ :
        EventResponse).user_id == uid) = true := by
      simp [hexe, hexu]
    have hpair2 : ((⟨ex.id, ex.user_id, ex.event_id, st2, n2, ex.created_at, t2⟩ :
        EventResponse).event_id == eid &&
        (⟨ex.id, ex.user_id, ex.event_id, st2, n2, ex.created_at, t2⟩ :
        EventResponse).user_id == uid) = true := by
      simp [hexe, hexu]
    have heq1 := upsert_update t1 eid uid st1 n1 s hev hus hstB1 hfound
    have hfound1 : lookupResp
        (replaceFirstResp eid uid
          ⟨ex.id, ex.user_id, ex.event_id, st1, n1, ex.created_at, t1⟩ s.responses) eid uid =
        some ⟨ex.id, ex.user_id, ex.event_id, st1, n1, ex.created_at, t1⟩ :=
      lookupResp_replaceFirstResp hfound hpair1
    have heq2 := upsert_update t2 eid uid st2 n2
      { s with responses := (replaceFirstResp eid uid
        ⟨ex.id, ex.user_id, ex.event_id, st1, n1, ex.created_at, t1⟩ s.responses) }
      hev hus hstB2 hfound1
    have hcount : (replaceFirstResp eid uid
        ⟨ex.id, ex.user_id, ex.event_id, st2, n2, ex.created_at, t2⟩
        (replaceFirstResp eid uid
          ⟨ex.id, ex.user_id, ex.event_id, st1, n1, ex.created_at, t1⟩
          s.responses)).countP (fun r => r.event_id == eid && r.user_id == uid) = 1 := by
      rw [countP_replaceFirstResp hpair2, countP_replaceFirstResp hpair1]
      exact countP_one_of_pairUnique hpu hfound
    have hlook := lookupResp_replaceFirstResp hfound1 hpair2
    refine ⟨⟨ex.id, ex.user_id, ex.event_id, st1, n1, ex.created_at, t1⟩,
      { s with responses := (replaceFirstResp eid uid
        ⟨ex.id, ex.user_id, ex.event_id, st1, n1, ex.created_at, t1⟩ s.responses) },
      ⟨ex.id, ex.user_id, ex.event_id, st2, n2, ex.created_at, t2⟩,
      { s with responses := (replaceFirstResp eid uid
        ⟨ex.id, ex.user_id, ex.event_id, st2, n2, ex.created_at, t2⟩
        (replaceFirstResp eid uid
          ⟨ex.id, ex.user_id, ex.event_id, st1, n1, ex.created_at, t1⟩ s.responses)) },
      heq1, heq2, hcount, rfl, rfl, rfl, ht, hlook, ?_⟩
    intro h1 h2
    subst h1
    subst h2
    rfl
  | none =>
    have hpairN : ((⟨s.nextRespId, uid, eid, st1, n1, t1, t1⟩ :
        EventResponse).event_id == eid &&
        (⟨s.nextRespId, uid, eid, st1, n1, t1, t1⟩ :
        EventResponse).user_id == uid) = true := by
      simp
    have hpair2 : ((⟨s.nextRespId, uid, eid, st2, n2, t1, t2⟩ :
        EventResponse).event_id == eid &&
        (⟨s.nextRespId, uid, eid, st2, n2, t1, t2⟩ :
        EventResponse).user_id == uid) = true := by
      simp
    have heq1 := upsert_insert t1 eid uid st1 n1 s hev hus hstB1 hfound
    have hfound1 : lookupResp
        (s.responses ++ [⟨s.nextRespId, uid, eid, st1, n1, t1, t1⟩]) eid uid =
        some ⟨s.nextRespId, uid, eid, st1, n1, t1, t1⟩ :=
      lookupResp_append_new hfound hpairN
    have heq2 := upsert_update t2 eid uid st2 n2
      { s with
        responses := (s.responses ++ [⟨s.nextRespId, uid, eid, st1, n1, t1, t1⟩]),
        nextRespId := s.nextRespId + 1 }
      hev hus hstB2 hfound1
    have hcount : (replaceFirstResp eid uid
        ⟨s.nextRespId, uid, eid, st2, n2, t1, t2⟩
        (s.responses ++ [⟨s.nextRespId, uid, eid, st1, n1, t1, t1⟩])).countP
          (fun r => r.event_id == eid && r.user_id == uid) = 1 := by
      rw [countP_replaceFirstResp hpair2, List.countP_append,
        countP_zero_of_lookupResp_none hfound]
      simp [List.countP_cons, hpairN]
    have hlook := lookupResp_replaceFirstResp hfound1 hpair2
    refine ⟨⟨s.nextRespId, uid, eid, st1, n1, t1, t1⟩,
      { s with
        responses := (s.responses ++ [⟨s.nextRespId, uid, eid, st1, n1, t1, t1⟩]),
        nextRespId := s.nextRespId + 1 },
      ⟨s.nextRespId, uid, eid, st2, n2, t1, t2⟩,
      { s with
        responses := (replaceFirstResp eid uid
          ⟨s.nextRespId, uid, eid, st2, n2, t1, t2⟩
          (s.responses ++ [⟨s.nextRespId, uid, eid, st1, n1, t1, t1⟩])),
        nextRespId := s.nextRespId + 1 },
      heq1, heq2, hcount, rfl, rfl, rfl, ht, hlook, ?_⟩
    intro h1 h2
    subst h1
    subst h2
    rfl

/-- Witness for C5: Yes then No on a fresh key leaves one row with status No
and the original creation time. -/
theorem upsert_twice_one_row_witness :
    (hasKey (⟨[⟨1, "A", "mentor", "x", true⟩], [1], [], 0⟩ : Store).events 1 = true ∧
     pairUnique (⟨[⟨1, "A", "mentor", "x", true⟩], [1], [], 0⟩ : Store).responses = true ∧
     (3 : Nat) ≤ 7) ∧
    create_or_update_response 7 1 1 "No" none
        ((create_or_update_response 3 1 1 "Yes" none
          ⟨[⟨1, "A", "mentor", "x", true⟩], [1], [], 0⟩).2) =
      (.ok ⟨0, 1, 1, "No", none, 3, 7⟩,
       ⟨[⟨1, "A", "mentor", "x", true⟩], [1], [⟨0, 1, 1, "No", none, 3, 7⟩], 1⟩) := by
  refine ⟨⟨by decide, by decide, by decide⟩, ?_⟩
  have h := upsert_twice_one_row 3 7 1 1 "Yes" "No" none none
    ⟨[⟨1, "A", "mentor", "x", true⟩], [1], [], 0⟩
    (by decide) (by decide) (Or.inl rfl) (Or.inr (Or.inl rfl)) (by decide) (by decide)
  exact (by decide)

/-! Preservation of pair uniqueness by every handler. -/

theorem upsert_preserves_pairUnique {now eid uid : Nat} {status : String}
    {note : Option String} {s : Store} (hpu : pairUnique s.responses = true) :
    pairUnique ((create_or_update_response now eid uid status note s).2).responses = true := by
  unfold create_or_update_response
  by_cases h1 : (!hasKey s.events eid) = true
  · rw [if_pos h1]
    exact hpu
  · rw [if_neg h1]
    by_cases h2 : (lookupU s.users uid).isNone = true
    · rw [if_pos h2]
      exact hpu
    · rw [if_neg h2]
      by_cases h3 : (!(status == "Yes" || status == "No" || status == "Maybe")) = true
      · rw [if_pos h3]
        exact hpu
      · rw [if_neg h3]
        cases hfound : lookupResp s.responses eid uid with
        | some ex =>
          show pairUnique (replaceFirstResp eid uid
            ({ ex with status := status, note := note, updated_at := now }) s.responses) = true
          obtain ⟨he, hu⟩ := lookupResp_pair hfound
          exact pairUnique_replaceFirstResp (by simp [he, hu]) hpu
        | none =>
          show pairUnique
            (s.responses ++ [⟨s.nextRespId, uid, eid, status, note, now, now⟩]) = true
          apply pairUnique_append hpu
          show pairFree eid uid s.responses = true
          apply pairFree_iff.mpr
          intro r hr
          exact bool_eq_false (List.find?_eq_none.mp hfound r hr)

theorem delete_response_preserves_pairUnique {eid uid : Nat} {s : Store}
    (hpu : pairUnique s.responses = true) :
    pairUnique ((delete_response eid uid s).2).responses = true := by
  unfold delete_response
  by_cases h1 : (!hasKey s.events eid) = true
  · rw [if_pos h1]
    exact hpu
  · rw [if_neg h1]
    cases hfound : lookupResp s.responses eid uid with
    | none => exact hpu
    | some ex =>
      show pairUnique
        (s.responses.eraseP (fun r => r.event_id == eid && r.user_id == uid)) = true
      exact pairUnique_sublist (List.eraseP_sublist _) hpu

theorem delete_user_responses (uid : Nat) (s : Store) :
    ((delete_user uid s).2).responses = s.responses := by
  unfold delete_user
  split
  · rfl
  · split <;> rfl

theorem delete_event_responses (eid : Nat) (s : Store) :
    ((delete_event eid s).2).responses = s.responses := by
  unfold delete_event
  split
  · rfl
  · split <;> rfl

theorem sync_users_store_responses (ext : List User) (s : Store) :
    ((sync_users_store ext s).2).responses = s.responses := by
  unfold sync_users_store
  cases (sync_users ext s.users).result with
  | error ms => rfl
  | ok sum =>
    split
    · rfl
    · split <;> rfl

/-- C4 (amended): every store state reachable through the handlers has at
most one `AttendanceResponse` row per `(event_id, user_id)` pair; the
uniqueness comes from the engine's check-then-write, not from a store
constraint. -/
theorem reachable_pairUnique (s : Store) (h : Reachable s) :
    pairUnique s.responses = true := by
  induction h with
  | init => rfl
  | addUser u _ ih => exact ih
  | addEvent eid _ ih => exact ih
  | upsert now eid uid status note _ ih => exact upsert_preserves_pairUnique ih
  | delResp eid uid _ ih => exact delete_response_preserves_pairUnique ih
  | delUser uid _ ih =>
    rw [delete_user_responses]
    exact ih
  | delEvent eid _ ih =>
    rw [delete_event_responses]
    exact ih
  | sync ext _ ih =>
    rw [sync_users_store_responses]
    exact ih

/-- Witness for C4 (amended): a concrete reachable state satisfies the pair
invariant. -/
theorem reachable_pairUnique_witness :
    pairUnique ((create_or_update_response 5 1 1 "Yes" none
      (create_user ⟨1, "A", "mentor", "x", true⟩
        (create_event 1 ⟨[], [], [], 0⟩))).2).responses = true :=
  reachable_pairUnique _
    (Reachable.upsert 5 1 1 "Yes" none
      (Reachable.addUser ⟨1, "A", "mentor", "x", true⟩
        (Reachable.addEvent 1 Reachable.init)))

/-- Counterexample to C4 as stated: the store itself accepts a direct insert
that duplicates an existing `(event_id, user_id)` pair — only the primary key
`id` is checked — so after the insert two rows carry the pair `(1, 1)` and
the pair-uniqueness invariant of the table is broken. -/
theorem store_pair_insert_accepted :
    storeInsertResponse ⟨1, 1, 1, "No", none, 1, 1⟩
        ⟨[⟨1, "A", "mentor", "x", true⟩], [1], [⟨0, 1, 1, "Yes", none, 0, 0⟩], 1⟩ =
      some ⟨[⟨1, "A", "mentor", "x", true⟩], [1],
        [⟨0, 1, 1, "Yes", none, 0, 0⟩, ⟨1, 1, 1, "No", none, 1, 1⟩], 1⟩ ∧
    pairUnique [⟨0, 1, 1, "Yes", none, 0, 0⟩] = true ∧
    ([(⟨0, 1, 1, "Yes", none, 0, 0⟩ : EventResponse),
      ⟨1, 1, 1, "No", none, 1, 1⟩].countP
        (fun r => r.event_id == 1 && r.user_id == 1)) = 2 ∧
    pairUnique [(⟨0, 1, 1, "Yes", none, 0, 0⟩ : EventResponse),
      ⟨1, 1, 1, "No", none, 1, 1⟩] = false := by
  decide

/-! Lemmas for the summary endpoint. -/

theorem responses_summary_ok {eid : Nat} {s : Store} (hev : hasKey s.events eid = true) :
    responses_summary eid s = .ok
      ⟨(s.responses.filter (fun r => r.event_id == eid)).countP (fun r => r.status == "Yes"),
       (s.responses.filter (fun r => r.event_id == eid)).countP (fun r => r.status == "No"),
       (s.responses.filter (fun r => r.event_id == eid)).countP (fun r => r.status == "Maybe"),
       (s.responses.filter (fun r => r.event_id == eid)).countP (isMentorYes s),
       (s.responses.filter (fun r => r.event_id == eid)).countP (isStudentYes s)⟩ := by
  unfold responses_summary
  rw [hev]
  rfl

theorem countP_ext {α : Type} (p q : α → Bool) (l : List α) (h : ∀ x, p x = q x) :
    l.countP p = l.countP q := by
  induction l with
  | nil => rfl
  | cons a as ih => rw [List.countP_cons, List.countP_cons, h a, ih]

theorem isMentorYes_users_eq {s s' : Store} (h : s'.users = s.users) (r : EventResponse) :
    isMentorYes s' r = isMentorYes s r := by
  unfold isMentorYes
  rw [h]

theorem isStudentYes_users_eq {s s' : Store} (h : s'.users = s.users) (r : EventResponse) :
    isStudentYes s' r = isStudentYes s r := by
  unfold isStudentYes
  rw [h]

/-- C9: for an existing event, the summary returns exactly the five counters
{yes, no, maybe, mentors_attending, students_attending}; yes/no/maybe count
the event's responses by status, the attending buckets count only `Yes`
responses whose user exists with type exactly "mentor" or "student", and a
`Yes` response whose user is absent or of another type raises `yes` while
leaving both attending buckets unchanged. -/
theorem summary_counts_correct (eid : Nat) (s : Store)
    (hev : hasKey s.events eid = true) :
    ∃ c, responses_summary eid s = .ok c ∧
      c.yes = (s.responses.filter (fun r => r.event_id == eid)).countP
        (fun r => r.status == "Yes") ∧
      c.no = (s.responses.filter (fun r => r.event_id == eid)).countP
        (fun r => r.status == "No") ∧
      c.maybe = (s.responses.filter (fun r => r.event_id == eid)).countP
        (fun r => r.status == "Maybe") ∧
      c.mentors_attending = (s.responses.filter (fun r => r.event_id == eid)).countP
        (isMentorYes s) ∧
      c.students_attending = (s.responses.filter (fun r => r.event_id == eid)).countP
        (isStudentYes s) ∧
      (∀ r : EventResponse, r.event_id = eid → r.status = "Yes" →
        (lookupU s.users r.user_id = none ∨
          ∃ u, lookupU s.users r.user_id = some u ∧
            u.type ≠ "mentor" ∧ u.type ≠ "student") →
        responses_summary eid { s with responses := r :: s.responses } =
          .ok { c with yes := c.yes + 1 }) := by
  refine ⟨_, responses_summary_ok hev, rfl, rfl, rfl, rfl, rfl, ?_⟩
  intro r hre hrs hu
  have hev' : hasKey ({ s with responses := r :: s.responses } : Store).events eid = true :=
    hev
  rw [responses_summary_ok hev']
  have hme : isMentorYes s r = false := by
    unfold isMentorYes
    rcases hu with h | ⟨u, h, hm, _⟩
    · rw [h]
      simp
    · rw [h]
      simp [hm]
  have hse : isStudentYes s r = false := by
    unfold isStudentYes
    rcases hu with h | ⟨u, h, _, hs2⟩
    · rw [h]
      simp
    · rw [h]
      simp [hs2]
  have hmeq : ∀ x, isMentorYes { s with responses := r :: s.responses } x =
      isMentorYes s x := fun x => isMentorYes_users_eq rfl x
  have hseq : ∀ x, isStudentYes { s with responses := r :: s.responses } x =
      isStudentYes s x := fun x => isStudentYes_users_eq rfl x
  have hfilter : (r :: s.responses).filter (fun x => x.event_id == eid) =
      r :: s.responses.filter (fun x => x.event_id == eid) := by
    rw [List.filter_cons, if_pos (by simp [hre])]
  show Except.ok _ = Except.ok _
  rw [show ({ s with responses := r :: s.responses } : Store).responses =
    r :: s.responses from rfl]
  rw [hfilter]
  simp only [List.countP_cons]
  have h1 : (r.status == "Yes") = true := by simp [hrs]
  have h2 : (r.status == "No") = false := by simp [hrs]
  have h3 : (r.status == "Maybe") = false := by simp [hrs]
  have h4 : isMentorYes { s with responses := r :: s.responses } r = false :=
    (hmeq r).trans hme
  have h5 : isStudentYes { s with responses := r :: s.responses } r = false :=
    (hseq r).trans hse
  rw [countP_ext _ _ _ hmeq, countP_ext _ _ _ hseq]
  simp [h1, h2, h3, h4, h5]

/-- Witness for C9: one mentor-Yes, two student-Yes, one No, plus a Yes whose
user id is absent from the store: yes counts it, no bucket does. -/
theorem summary_counts_correct_witness :
    hasKey (⟨[⟨1, "A", "mentor", "x", true⟩, ⟨2, "B", "student", "x", true⟩,
        ⟨3, "C", "student", "x", true⟩, ⟨4, "D", "other", "x", true⟩], [1],
        [⟨0, 1, 1, "Yes", none, 0, 0⟩, ⟨1, 2, 1, "Yes", none, 0, 0⟩,
         ⟨2, 3, 1, "Yes", none, 0, 0⟩, ⟨3, 4, 1, "No", none, 0, 0⟩,
         ⟨4, 9, 1, "Yes", none, 0, 0⟩], 5⟩ : Store).events 1 = true ∧
    responses_summary 1
        ⟨[⟨1, "A", "mentor", "x", true⟩, ⟨2, "B", "student", "x", true⟩,
          ⟨3, "C", "student", "x", true⟩, ⟨4, "D", "other", "x", true⟩], [1],
         [⟨0, 1, 1, "Yes", none, 0, 0⟩, ⟨1, 2, 1, "Yes", none, 0, 0⟩,
          ⟨2, 3, 1, "Yes", none, 0, 0⟩, ⟨3, 4, 1, "No", none, 0, 0⟩,
          ⟨4, 9, 1, "Yes", none, 0, 0⟩], 5⟩ =
      .ok ⟨4, 1, 0, 1, 2⟩ := by
  refine ⟨by decide, ?_⟩
  have h := summary_counts_correct 1
    ⟨[⟨1, "A", "mentor", "x", true⟩, ⟨2, "B", "student", "x", true⟩,
      ⟨3, "C", "student", "x", true⟩, ⟨4, "D", "other", "x", true⟩], [1],
     [⟨0, 1, 1, "Yes", none, 0, 0⟩, ⟨1, 2, 1, "Yes", none, 0, 0⟩,
      ⟨2, 3, 1, "Yes", none, 0, 0⟩, ⟨3, 4, 1, "No", none, 0, 0⟩,
      ⟨4, 9, 1, "Yes", none, 0, 0⟩], 5⟩ (by decide)
  exact (by decide)

/-! Lemma for the delete-user frame property. -/

theorem lookupU_eraseP_self {xs : List User} {uid : Nat}
    (hnd : (ukeys xs).Nodup) :
    lookupU (xs.eraseP (fun u => u.id == uid)) uid = none := by
  induction xs with
  | nil => rfl
  | cons x xt ih =>
    rw [ukeys, List.map_cons, List.nodup_cons] at hnd
    by_cases hx : (x.id == uid) = true
    · have he : List.eraseP (fun u => u.id == uid) (x :: xt) = xt := by
        simp [List.eraseP_cons, hx]
      rw [he]
      apply lookupU_eq_none.mpr
      have hid : x.id = uid := by simpa using hx
      rw [← hid]
      exact hnd.1
    · have he : List.eraseP (fun u => u.id == uid) (x :: xt) =
          x :: List.eraseP (fun u => u.id == uid) xt := by
        simp [List.eraseP_cons, bool_eq_false hx]
      rw [he]
      simp only [lookupU, List.find?, bool_eq_false hx]
      exact ih hnd.2

/-- Counterexample to C10 as stated: deleting a person who still has an
attendance response does not go through at all — both the direct delete and
the sync delete phase hit the NOT NULL `user_id` nullification and fail with
`IntegrityError`, mutating nothing — so the deletion never leaves orphaned
responses behind. -/
theorem delete_user_integrity_counterexample :
    delete_user 1
        ⟨[⟨1, "A", "mentor", "x", true⟩], [1], [⟨0, 1, 1, "Yes", none, 0, 0⟩], 1⟩ =
      (.error .integrityError,
       ⟨[⟨1, "A", "mentor", "x", true⟩], [1], [⟨0, 1, 1, "Yes", none, 0, 0⟩], 1⟩) ∧
    sync_users_store []
        ⟨[⟨1, "A", "mentor", "x", true⟩], [1], [⟨0, 1, 1, "Yes", none, 0, 0⟩], 1⟩ =
      (.integrityError,
       ⟨[⟨1, "A", "mentor", "x", true⟩], [1], [⟨0, 1, 1, "Yes", none, 0, 0⟩], 1⟩) ∧
    lookupU [(⟨1, "A", "mentor", "x", true⟩ : User)] 1 ≠ none := by
  decide

/-- C10 (amended): neither the direct delete nor the sync delete phase ever
touches the `eventresponse` table.  A person without responses is removed
cleanly, leaving every response unchanged; a person who still has responses
cannot be deleted — the commit raises `IntegrityError` and the store is
returned unchanged — so no cascade or cleanup occurs and deletions never
produce responses that reference a missing person. -/
theorem delete_user_keeps_responses (uid : Nat) (s : Store) (ext : List User)
    (hnd : (ukeys s.users).Nodup) :
    ((delete_user uid s).2).responses = s.responses ∧
    ((sync_users_store ext s).2).responses = s.responses ∧
    (s.responses.any (fun r => r.user_id == uid) = false →
      (lookupU s.users uid).isSome = true →
      (delete_user uid s).1 = .ok () ∧
      lookupU ((delete_user uid s).2).users uid = none) ∧
    ((lookupU s.users uid).isSome = true →
      s.responses.any (fun r => r.user_id == uid) = true →
      delete_user uid s = (.error .integrityError, s)) ∧
    (∀ r ∈ s.responses, r ∈ ((delete_user uid s).2).responses) := by
  refine ⟨delete_user_responses uid s, sync_users_store_responses ext s, ?_, ?_, ?_⟩
  · intro hnoresp hsome
    unfold delete_user
    rw [isNone_false_of_isSome hsome, hnoresp]
    exact ⟨rfl, lookupU_eraseP_self hnd⟩
  · intro hsome hresp
    unfold delete_user
    rw [isNone_false_of_isSome hsome, hresp]
    rfl
  · intro r hr
    rw [delete_user_responses]
    exact hr

/-- Witness for C10 (amended): deleting response-free user 1 removes only
that user and keeps user 2's response intact. -/
theorem delete_user_keeps_responses_witness :
    ((ukeys (⟨[⟨1, "A", "mentor", "x", true⟩, ⟨2, "B", "student", "x", true⟩], [1],
        [⟨0, 2, 1, "Yes", none, 0, 0⟩], 1⟩ : Store).users).Nodup ∧
     (⟨[⟨1, "A", "mentor", "x", true⟩, ⟨2, "B", "student", "x", true⟩], [1],
        [⟨0, 2, 1, "Yes", none, 0, 0⟩], 1⟩ : Store).responses.any
          (fun r => r.user_id == 1) = false ∧
     (lookupU (⟨[⟨1, "A", "mentor", "x", true⟩, ⟨2, "B", "student", "x", true⟩], [1],
        [⟨0, 2, 1, "Yes", none, 0, 0⟩], 1⟩ : Store).users 1).isSome = true) ∧
    (delete_user 1 ⟨[⟨1, "A", "mentor", "x", true⟩, ⟨2, "B", "student", "x", true⟩], [1],
        [⟨0, 2, 1, "Yes", none, 0, 0⟩], 1⟩).1 = .ok () ∧
    ((delete_user 1 ⟨[⟨1, "A", "mentor", "x", true⟩, ⟨2, "B", "student", "x", true⟩], [1],
        [⟨0, 2, 1, "Yes", none, 0, 0⟩], 1⟩).2).responses =
      [⟨0, 2, 1, "Yes", none, 0, 0⟩] ∧
    lookupU ((delete_user 1 ⟨[⟨1, "A", "mentor", "x", true⟩,
        ⟨2, "B", "student", "x", true⟩], [1],
        [⟨0, 2, 1, "Yes", none, 0, 0⟩], 1⟩).2).users 1 = none := by
  refine ⟨⟨by decide, by decide, by decide⟩, ?_, ?_, ?_⟩
  · have h := delete_user_keeps_responses 1
      ⟨[⟨1, "A", "mentor", "x", true⟩, ⟨2, "B", "student", "x", true⟩], [1],
       [⟨0, 2, 1, "Yes", none, 0, 0⟩], 1⟩ [] (by decide)
    exact (by decide)
  · have h := delete_user_keeps_responses 1
      ⟨[⟨1, "A", "mentor", "x", true⟩, ⟨2, "B", "student", "x", true⟩], [1],
       [⟨0, 2, 1, "Yes", none, 0, 0⟩], 1⟩ [] (by decide)
    exact (by decide)
  · have h := delete_user_keeps_responses 1
      ⟨[⟨1, "A", "mentor", "x", true⟩, ⟨2, "B", "student", "x", true⟩], [1],
       [⟨0, 2, 1, "Yes", none, 0, 0⟩], 1⟩ [] (by decide)
    exact (by decide)

/-- C3: when at least one common key carries different names, the sync run
fails with the complete mismatch list — an entry for every mismatching key,
each recording the id and both names — and the user table is untouched. -/
theorem sync_identity_conflict (ext db : List User)
    (hconf : ∃ i e d, lookupU ext i = some e ∧ lookupU db i = some d ∧ e.name ≠ d.name) :
    ∃ ms, sync_users ext db = ⟨.error ms, db⟩ ∧
      (∀ i e d, lookupU ext i = some e → lookupU db i = some d → e.name ≠ d.name →
        (⟨i, e.name, d.name⟩ : Mismatch) ∈ ms) ∧
      (∀ m ∈ ms, ∃ e d, lookupU ext m.id = some e ∧ lookupU db m.id = some d ∧
        e.name ≠ d.name ∧ e.name = m.csv_name ∧ d.name = m.db_name) := by
  obtain ⟨i, e, d, he, hd, hnm⟩ := hconf
  have hnonempty : mismatchesOf ext db ≠ [] := by
    intro hc
    have hmem := mismatchesOf_complete he hd hnm
    rw [hc] at hmem
    cases hmem
  refine ⟨mismatchesOf ext db, sync_users_error hnonempty, ?_, ?_⟩
  · intro j e' d' he' hd' hne'
    exact mismatchesOf_complete he' hd' hne'
  · intro m hm
    exact mismatchesOf_sound hm

/-- Witness for C3: a single common key with conflicting names aborts the
sync with that mismatch and leaves the table as it was. -/
theorem sync_identity_conflict_witness :
    sync_users [⟨5, "Alice", "mentor", "x", true⟩] [⟨5, "Bob", "mentor", "x", true⟩] =
      ⟨.error [⟨5, "Alice", "Bob"⟩], [⟨5, "Bob", "mentor", "x", true⟩]⟩ := by
  have h := sync_identity_conflict [⟨5, "Alice", "mentor", "x", true⟩]
    [⟨5, "Bob", "mentor", "x", true⟩]
    ⟨5, ⟨5, "Alice", "mentor", "x", true⟩, ⟨5, "Bob", "mentor", "x", true⟩,
      rfl, rfl, by decide⟩
  exact (by decide)

/-- C7: a sync run against an identical table is a no-op reporting zero
deletes, updates and inserts, and running the sync twice with the same CSV
leaves the table exactly as after the first run. -/
theorem sync_noop_idempotent (ext db : List User) (hne : (ukeys ext).Nodup) :
    ((∀ i, lookupU ext i = lookupU db i) →
      sync_users ext db = ⟨.ok ⟨0, 0, 0, []⟩, db⟩) ∧
    (∀ sum fin, sync_users ext db = ⟨.ok sum, fin⟩ →
      sync_users ext fin = ⟨.ok ⟨0, 0, 0, []⟩, fin⟩) := by
  constructor
  · exact sync_noop
  · intro sum fin hrun
    have hval : mismatchesOf ext db = [] := by
      by_contra hc
      rw [sync_users_error hc] at hrun
      injection hrun with h1 h2
      exact Except.noConfusion h1
    have hfin : fin = (sync_users ext db).db := by rw [hrun]
    subst hfin
    exact sync_noop (fun i => (sync_final_lookup hne hval i).symm)

/-- Witness for C7: syncing a one-row table against the identical CSV is a
no-op. -/
theorem sync_noop_idempotent_witness :
    (ukeys [(⟨1, "A", "mentor", "x", true⟩ : User)]).Nodup ∧
    sync_users [⟨1, "A", "mentor", "x", true⟩] [⟨1, "A", "mentor", "x", true⟩] =
      ⟨.ok ⟨0, 0, 0, []⟩, [⟨1, "A", "mentor", "x", true⟩]⟩ := by
  refine ⟨by decide, ?_⟩
  exact (sync_noop_idempotent [⟨1, "A", "mentor", "x", true⟩]
    [⟨1, "A", "mentor", "x", true⟩] (by decide)).1 (fun i => rfl)

/-- C2 (amended): after the validation gate clears, the sync deletes exactly
the persisted-only keys, updates a common key iff one of name/type/role/
active differs, inserts exactly the external-only keys, and applies every
delete before all updates and inserts; updates and inserts are interleaved
per ascending external key rather than forming two separate phases.  The
final table agrees with the external map on every key. -/
theorem sync_partition_correct (ext db : List User)
    (hne : (ukeys ext).Nodup)
    (hval : mismatchesOf ext db = []) :
    ∃ sum, (sync_users ext db).result = .ok sum ∧
      (∀ i, MutOp.del i ∈ sum.trace ↔ (i ∈ ukeys db ∧ i ∉ ukeys ext)) ∧
      (∀ i, MutOp.upd i ∈ sum.trace ↔
        ∃ e d, lookupU ext i = some e ∧ lookupU db i = some d ∧ recDiffers d e = true) ∧
      (∀ i, MutOp.ins i ∈ sum.trace ↔ (i ∈ ukeys ext ∧ i ∉ ukeys db)) ∧
      (∃ l1 l2, sum.trace = l1 ++ l2 ∧
        (∀ op ∈ l1, op.isDel = true) ∧ (∀ op ∈ l2, op.isDel = false)) ∧
      (∀ i, lookupU (sync_users ext db).db i = lookupU ext i) := by
  have hok := sync_users_ok hval
  have htr : (syncLoop ext (sortNat (ukeys ext)) (dbDel ext db)).1 =
      ((sortNat (ukeys ext)).map (piece ext (dbDel ext db))).flatten :=
    syncLoop_trace (sortNat_nodup hne)
  refine ⟨⟨(dbOnlyIds ext db).length,
      (syncLoop ext (sortNat (ukeys ext)) (dbDel ext db)).1.countP MutOp.isUpd,
      (syncLoop ext (sortNat (ukeys ext)) (dbDel ext db)).1.countP MutOp.isIns,
      (dbOnlyIds ext db).map MutOp.del ++
        (syncLoop ext (sortNat (ukeys ext)) (dbDel ext db)).1⟩,
    by rw [hok], ?_, ?_, ?_, ?_, ?_⟩
  · intro i
    show MutOp.del i ∈ (dbOnlyIds ext db).map MutOp.del ++
      (syncLoop ext (sortNat (ukeys ext)) (dbDel ext db)).1 ↔ _
    rw [htr]
    exact sync_trace_del
  · intro i
    show MutOp.upd i ∈ (dbOnlyIds ext db).map MutOp.del ++
      (syncLoop ext (sortNat (ukeys ext)) (dbDel ext db)).1 ↔ _
    rw [htr]
    exact sync_trace_upd
  · intro i
    show MutOp.ins i ∈ (dbOnlyIds ext db).map MutOp.del ++
      (syncLoop ext (sortNat (ukeys ext)) (dbDel ext db)).1 ↔ _
    rw [htr]
    exact sync_trace_ins
  · refine ⟨(dbOnlyIds ext db).map MutOp.del,
      (syncLoop ext (sortNat (ukeys ext)) (dbDel ext db)).1, rfl, ?_, ?_⟩
    · intro op hop
      rw [List.mem_map] at hop
      obtain ⟨j, _, hj⟩ := hop
      rw [← hj]
      rfl
    · intro op hop
      rw [htr, List.mem_flatten] at hop
      obtain ⟨l, hl, hmem⟩ := hop
      rw [List.mem_map] at hl
      obtain ⟨j, _, hj⟩ := hl
      subst hj
      exact piece_no_del op hmem
  · exact sync_final_lookup hne hval

/-- Witness for C2 (amended): a run with one external-only key, one common
key with a changed type and no persisted-only key. -/
theorem sync_partition_correct_witness :
    ((ukeys [(⟨1, "A", "t1", "r", true⟩ : User), ⟨2, "B", "t2", "r", true⟩]).Nodup ∧
     mismatchesOf [⟨1, "A", "t1", "r", true⟩, ⟨2, "B", "t2", "r", true⟩]
       [⟨2, "B", "told", "r", true⟩] = []) ∧
    (sync_users [⟨1, "A", "t1", "r", true⟩, ⟨2, "B", "t2", "r", true⟩]
      [⟨2, "B", "told", "r", true⟩]).result =
      .ok ⟨0, 1, 1, [MutOp.ins 1, MutOp.upd 2]⟩ := by
  refine ⟨⟨by decide, by decide⟩, ?_⟩
  have h := sync_partition_correct [⟨1, "A", "t1", "r", true⟩, ⟨2, "B", "t2", "r", true⟩]
    [⟨2, "B", "told", "r", true⟩] (by decide) (by decide)
  exact (by decide)

/-- Counterexample to C2 as stated: the sync phase walks the external keys in
ascending order and emits an insert for key 1 before the update for key 2, so
the mutations are not applied as "all updates, then all inserts". -/
theorem sync_order_counterexample :
    sync_users [⟨1, "A", "t1", "r", true⟩, ⟨2, "B", "t2", "r", true⟩]
        [⟨2, "B", "told", "r", true⟩] =
      ⟨.ok ⟨0, 1, 1, [MutOp.ins 1, MutOp.upd 2]⟩,
       [⟨2, "B", "t2", "r", true⟩, ⟨1, "A", "t1", "r", true⟩]⟩ ∧
    updAfterIns [MutOp.ins 1, MutOp.upd 2] = true := by
  decide

/-- C8 (amended): the reconciliation entry point mutates the store without
requesting any confirmation and without making a backup; only the separate
database-reset entry point prompts the operator (the `-y` or `--yes` flag
being the sole bypass) and backs up an existing database before resetting. -/
theorem entry_point_confirmation (ext : List User) (s : Store)
    (argv : List String) (answer : String) (dbExists : Bool) :
    ((sync_main ext s).1.confirmRequested = false ∧
     (sync_main ext s).1.backupMade = false ∧
     (sync_main ext s).2.2 = (sync_users_store ext s).2) ∧
    ((reset_main argv answer dbExists).2 = true →
      (reset_main argv answer dbExists).1.backupMade = dbExists) ∧
    (argv.any (fun a => a == "-y" || a == "--yes") = false →
      (reset_main argv answer dbExists).1.confirmRequested = true) ∧
    (argv.any (fun a => a == "-y" || a == "--yes") = false →
      startsWithY answer = false →
      (reset_main argv answer dbExists).2 = false) := by
  refine ⟨⟨rfl, rfl, rfl⟩, ?_, ?_, ?_⟩
  · intro hres
    unfold reset_main at hres ⊢
    by_cases hsw : startsWithY
        (if argv.any (fun a => a == "-y" || a == "--yes") then "y" else answer) = true
    · rw [if_pos hsw]
    · rw [if_neg hsw] at hres
      cases hres
  · intro hb
    unfold reset_main
    by_cases hsw : startsWithY
        (if argv.any (fun a => a == "-y" || a == "--yes") then "y" else answer) = true
    · rw [if_pos hsw]
      show (!argv.any (fun a => a == "-y" || a == "--yes")) = true
      rw [hb]
      rfl
    · rw [if_neg hsw]
      show (!argv.any (fun a => a == "-y" || a == "--yes")) = true
      rw [hb]
      rfl
  · intro hb h2
    unfold reset_main
    rw [hb]
    show (if startsWithY answer = true then
        ((⟨!false, dbExists⟩ : OpTrace), true)
      else (⟨!false, false⟩, false)).2 = false
    rw [h2]
    rfl

/-- Counterexample to C8 as stated: with an empty external list the sync
entry point deletes every user, yet its run shows no confirmation request
and no backup. -/
theorem sync_main_mutates_unconfirmed :
    (sync_main [] ⟨[⟨1, "A", "mentor", "x", true⟩], [], [], 0⟩).1.confirmRequested =
      false ∧
    (sync_main [] ⟨[⟨1, "A", "mentor", "x", true⟩], [], [], 0⟩).1.backupMade = false ∧
    ((sync_main [] ⟨[⟨1, "A", "mentor", "x", true⟩], [], [], 0⟩).2.2).users = [] ∧
    (⟨[⟨1, "A", "mentor", "x", true⟩], [], [], 0⟩ : Store).users ≠ [] := by
  decide

/-- Witness for C8 (amended): a reset invocation without the bypass flag and
with a non-"y" answer performs no reset, and a "-y" run backs up an existing
database. -/
theorem entry_point_confirmation_witness :
    (List.any [] (fun a => a == "-y" || a == "--yes") = false ∧
     startsWithY "n" = false) ∧
    (reset_main [] "n" true).2 = false ∧
    (reset_main ["-y"] "" true).1.backupMade = true := by
  refine ⟨⟨by decide, by decide⟩, ?_, ?_⟩
  · exact (entry_point_confirmation [] ⟨[], [], [], 0⟩ [] "n" true).2.2.2
      (by decide) (by decide)
  · have h := (entry_point_confirmation [] ⟨[], [], [], 0⟩ ["-y"] "" true).2.1
    exact h (by decide)
